import Mathlib

/-!
Verification of the MetSim disaggregation core (`src/metsim/disaggregate.py`).

The source file's arithmetic is shallowly embedded over `ℚ` (the Python code
computes with IEEE floats; all the properties checked here are exact
identities or inequalities of the underlying real-number formulas, so we work
with exact rational arithmetic).  Integer index arithmetic (`np.floor`,
`int(...)` casts, slicing) is embedded with `ℤ`/`ℕ` and `Int.floor`.

The repository modules `metsim.constants`, `metsim.physics` (`svp`) and
`metsim.datetime` (`date_range`) are not part of the sources under
verification (the spec lists the constants/configuration surface and the
solar-geometry precomputation as external collaborators); they are modelled
below, each with a doc comment saying what is modelled.  The third-party
functions `scipy.interpolate.PchipInterpolator` and `scipy.interpolate.interp1d`
are likewise modelled from the spec's description of them.  Transcendental
float operations (`np.exp`, `np.power`, `np.sqrt`) that appear only inside the
longwave emissivity formulas are abstracted as parameters, so every
definition stays executable.
-/

namespace MetSim

/-- Modelled from the spec: `metsim.constants` is an external module (the
constants/config surface); the numeric values are the universal meanings of
the constant names. Minutes per hour. -/
def MIN_PER_HOUR : ℚ := 60

/-- Modelled from the spec: hours per day (`metsim.constants`). -/
def HOURS_PER_DAY : ℚ := 24

/-- Modelled from the spec: seconds per hour (`metsim.constants`). -/
def SEC_PER_HOUR : ℚ := 3600

/-- Modelled from the spec: seconds per minute (`metsim.constants`). -/
def SEC_PER_MIN : ℚ := 60

/-- Modelled from the spec: the fixed sub-hour radiation time step, in
seconds (`metsim.constants.SW_RAD_DT`; the spec calls it "a fixed sub-hour
interval"). -/
def SW_RAD_DT : ℚ := 30

/-- Modelled from the spec: degrees per revolution (`metsim.constants`). -/
def DEG_PER_REV : ℚ := 360

/-- Modelled from the spec: millibar per bar (`metsim.constants`). -/
def MBAR_PER_BAR : ℚ := 1000

/-- Modelled from the spec: 100 percent (`metsim.constants.MAX_PERCENT`). -/
def MAX_PERCENT : ℚ := 100

/-- Modelled from the spec: Celsius-to-Kelvin offset (`metsim.constants`). -/
def KELVIN : ℚ := 273.15

/-- Modelled from the spec: the Stefan-Boltzmann constant
(`metsim.constants.STEFAN_B`). -/
def STEFAN_B : ℚ := 5.669e-8

/-! ## Triangular precipitation kernel (`prec_TRIANGLE`, lines 252-377)

`ts` is `params['time_step']` in minutes (a positive integer; the code turns
it into a float and back with `int(ts)`, which is the identity here). -/

/-- `steps_per_day = int(cnst.MIN_PER_HOUR * cnst.HOURS_PER_DAY / int(ts))`
(line 259); for a positive integer `ts` the float division plus `int`
truncation is natural-number division. -/
def stepsPerDay (ts : ℕ) : ℕ := 1440 / ts

/-- `offset = np.ceil(steps_per_day / 2)` (line 260): ceiling division by 2. -/
def offset (ts : ℕ) : ℕ := (stepsPerDay ts + 1) / 2

/-- `steps_per_two_days = int(((np.ceil(steps_per_day / 2)) * 2) + steps_per_day)`
(line 263). -/
def stepsPerTwoDays (ts : ℕ) : ℕ := offset ts * 2 + stepsPerDay ts

/-- `I_pk = 2. * 1. / dur[month]` (line 270). -/
def I_pk (dur : ℚ) : ℚ := 2 * 1 / dur

/-- `m = I_pk / (dur[month] / 2.)` (line 271). -/
def mSlope (dur : ℚ) : ℚ := I_pk dur / (dur / 2)

/-- `t_start = t_pk[month] - dur[month] / 2.` (line 272). -/
def tStart (dur tPk : ℚ) : ℚ := tPk - dur / 2

/-- `t_end = t_pk[month] + dur[month] / 2.` (line 273). -/
def tEnd (dur tPk : ℚ) : ℚ := tPk + dur / 2

/-- `i_start = np.floor(t_start / ts) + offset` (line 274). -/
def iStart (ts : ℕ) (dur tPk : ℚ) : ℤ := ⌊tStart dur tPk / (ts : ℚ)⌋ + offset ts

/-- `i_end = np.floor(t_end / ts) + offset` (line 275). -/
def iEnd (ts : ℕ) (dur tPk : ℚ) : ℤ := ⌊tEnd dur tPk / (ts : ℚ)⌋ + offset ts

/-- `i_t_pk = np.floor(t_pk[month] / ts) + offset` (line 276). -/
def iPk (ts : ℕ) (tPk : ℚ) : ℤ := ⌊tPk / (ts : ℚ)⌋ + offset ts

/-- `t_step_start = (step - offset) * ts` (lines 280/302/320/328). -/
def tStepStart (ts : ℕ) (step : ℕ) : ℚ := ((step : ℚ) - (offset ts : ℚ)) * (ts : ℚ)

/-- `t_step_end = t_step_start + ts` (lines 281/303/321/329). -/
def tStepEnd (ts : ℕ) (step : ℕ) : ℚ := tStepStart ts step + (ts : ℚ)

/-- The discretized unit hyetograph: `kernels[month, step]` as built by the
four structural cases of lines 269-361 of `prec_TRIANGLE`.  The row of the
`kernels` array for a month depends on its `dur[month]` and `t_pk[month]`
only, so the kernel is a function of `(ts, dur, t_pk, step)`; entries never
written by the loops keep the `np.zeros` initialization, hence the `else 0`
branches (including the final case's `else`, whose body writes only to
`P_return`, leaving the kernel entry at 0). -/
def kernel (ts : ℕ) (dur tPk : ℚ) (step : ℕ) : ℚ :=
  let m := mSlope dur
  let tS := tStart dur tPk
  let tE := tEnd dur tPk
  let iS := iStart ts dur tPk
  let iE := iEnd ts dur tPk
  let iP := iPk ts tPk
  let tss := tStepStart ts step
  let tse := tStepEnd ts step
  if iS = iP ∧ iE ≠ iS then
    -- lines 278-299
    if (step : ℤ) = iS then
      let h1 := tPk - tS
      let b1 := m * h1
      let A1 := b1 / 2 * h1
      let b2 := -m * (tse - tE)
      let a2 := b2 + -m * (tPk - tse)
      let A2 := (a2 + b2) / 2 * (tse - tPk)
      A1 + A2
    else if iS < (step : ℤ) ∧ (step : ℤ) < iE then
      let b := -m * (tse - tE)
      let a := -m * (tss - tse)
      (a + b) / 2 * (ts : ℚ)
    else if (step : ℤ) = iE then
      let h := tss - tE
      let b := -m * h
      b / 2 * -h
    else 0
  else if iP = iE ∧ iE ≠ iS then
    -- lines 300-317
    if (step : ℤ) = iS then
      let h := tse - tS
      let b := m * h
      b / 2 * h
    else if (step : ℤ) = iP then
      let h2 := tPk - tE
      let b2 := -m * h2
      let A2 := b2 / 2 * -h2
      let b1 := m * (tss - tS)
      let a1 := b1 + m * (tPk - tss)
      let A1 := (a1 + b1) / 2 * (tPk - tss)
      A1 + A2
    else 0
  else if iS = iE then
    -- lines 318-325
    if (step : ℤ) = iS then 1 else 0
  else
    -- lines 326-361
    if (step : ℤ) = iS then
      let h := tse - tS
      let b := m * h
      b / 2 * h
    else if iS < (step : ℤ) ∧ (step : ℤ) < iP then
      let a := m * (tss - tS)
      let b := a + m * (ts : ℚ)
      (a + b) / 2 * (ts : ℚ)
    else if iP = (step : ℤ) then
      let h1 := tPk - tss
      let a1 := m * (tss - tS)
      let b1 := a1 + m * h1
      let h2 := tse - tPk
      let b2 := -m * (tse - tE)
      let a2 := b2 + m * h2
      (a1 + b1) / 2 * h1 + (a2 + b2) / 2 * h2
    else if (step : ℤ) < iE ∧ iP < (step : ℤ) then
      let b := if tse ≠ tE then -m * (tse - tE) else 0
      let a := b + m * (ts : ℚ)
      (a + b) / 2 * (ts : ℚ)
    else if (step : ℤ) = iE then
      let h := tss - tE
      let b := if tss ≠ tE then -m * h else 0
      b / 2 * -h
    else 0

/-- Cumulative area (from the left) under the continuous triangular intensity
pulse of unit mass: the exact integral each kernel bin is supposed to hold a
slice of.  Used only as proof machinery for the mass-conservation theorems. -/
def triCDF (dur tPk : ℚ) (t : ℚ) : ℚ :=
  if t ≤ tStart dur tPk then 0
  else if t ≤ tPk then mSlope dur * (t - tStart dur tPk) ^ 2 / 2
  else if t < tEnd dur tPk then 1 - mSlope dur * (tEnd dur tPk - t) ^ 2 / 2
  else 1

/-! ## Applying the kernels (`prec_TRIANGLE`, lines 364-377) -/

/-- `int(np.ceil(steps_per_day * 1.5))` (lines 367/371): ceiling of `3*spd/2`. -/
def ceil15 (ts : ℕ) : ℕ := (3 * stepsPerDay ts + 1) / 2

/-- `i0 = int(np.floor((d - 0.5) * steps_per_day))` (lines 370/373), for `d ≥ 1`. -/
def i0Mid (ts : ℕ) (d : ℕ) : ℕ := (2 * d - 1) * stepsPerDay ts / 2

/-- `sum(kernels[month_of_year[0] - 1, int(np.ceil(steps_per_day / 2)):])`
(line 368): mass of the first day's kernel over its in-bounds half-window. -/
def firstDayNorm (ts : ℕ) (dur tPk : ℚ) : ℚ :=
  ∑ j in Finset.Ico (offset ts) (stepsPerTwoDays ts), kernel ts dur tPk j

/-- `sum(kernels[month_of_year[d] - 1, :int(np.ceil(steps_per_day * 1.5))])`
(line 371): mass of the last day's kernel over its in-bounds half-window. -/
def lastDayNorm (ts : ℕ) (dur tPk : ℚ) : ℚ :=
  ∑ j in Finset.range (ceil15 ts), kernel ts dur tPk j

/-- The vector added into `P_return` for day `d` by the loop of lines
365-375: day 0 adds its renormalized kernel tail over `P_return[:i1]`
(line 368), the last day adds its renormalized kernel head over
`P_return[i0:]` (line 371), and interior days add their full scaled kernel
over `P_return[i0:i1]` (line 375).  The interior window is `i1 - i0 =
2 * steps_per_day` wide; when `steps_per_day` is odd the kernel row is one
entry longer and line 375 raises instead of assigning (that case is an
`Except.error` in `prec_dispatch` below, so this definition is only read
when `2 * steps_per_day = steps_per_two_days` or there is no interior day).
`durM`/`tPkM` are the monthly columns `dur`/`t_pk`, `mo` is
`month_of_year`, `precD` the daily precipitation. -/
def contrib (ts : ℕ) (durM tPkM : ℕ → ℚ) (mo : ℕ → ℕ) (precD : ℕ → ℚ)
    (nDays : ℕ) (d i : ℕ) : ℚ :=
  if d = 0 then
    if i < ceil15 ts then
      1 / firstDayNorm ts (durM (mo 0 - 1)) (tPkM (mo 0 - 1)) * precD 0 *
        kernel ts (durM (mo 0 - 1)) (tPkM (mo 0 - 1)) (offset ts + i)
    else 0
  else if d = nDays - 1 then
    if i0Mid ts d ≤ i ∧ i < i0Mid ts d + ceil15 ts then
      1 / lastDayNorm ts (durM (mo d - 1)) (tPkM (mo d - 1)) * precD d *
        kernel ts (durM (mo d - 1)) (tPkM (mo d - 1)) (i - i0Mid ts d)
    else 0
  else
    if i0Mid ts d ≤ i ∧ i < i0Mid ts d + 2 * stepsPerDay ts then
      precD d * kernel ts (durM (mo d - 1)) (tPkM (mo d - 1)) (i - i0Mid ts d)
    else 0

/-- `np.around(x, decimals=5)` (line 376).  NumPy rounds ties to even; no
claim here depends on tie behaviour, so ordinary rounding is used. -/
def round5 (q : ℚ) : ℚ := (round (q * 100000) : ℤ) / 100000

/-- The full TRIANGLE sub-daily precipitation series (lines 264-377):
`P_return` starts at zero and each day adds its contribution vector into its
two-day window, after which the series is rounded to 5 decimals. -/
def P_return_TRIANGLE (ts : ℕ) (durM tPkM : ℕ → ℚ) (mo : ℕ → ℕ)
    (precD : ℕ → ℚ) (nDays : ℕ) (i : ℕ) : ℚ :=
  round5 (∑ d in Finset.range nDays, contrib ts durM tPkM mo precD nDays d i)

/-! ## Shortwave distributor (`shortwave`, lines 528-584) -/

/-- `np.asarray(x, dtype=np.int32)` on a float: truncation toward zero. -/
def ratTrunc (q : ℚ) : ℤ := if 0 ≤ q then ⌊q⌋ else ⌈q⌉

/-- `tiny_step_per_hour = cnst.SEC_PER_HOUR / cnst.SW_RAD_DT` (line 552):
3600 / 30 = 120 fine steps per hour. -/
def tinyStepPerHour : ℚ := SEC_PER_HOUR / SW_RAD_DT

/-- `tiny_offset = ((params.get("theta_l", 0) - params.get("theta_s", 0)
/ (cnst.HOURS_PER_DAY / cnst.DEG_PER_REV)))` (lines 558-559).  Note the
parenthesization of the source: only `theta_s` is divided by `24/360`. -/
def tinyOffset (thetaL thetaS : ℚ) : ℚ :=
  thetaL - thetaS / (HOURS_PER_DAY / DEG_PER_REV)

/-- The index-rotation of lines 562-567: `tinystep = arange(2880) - tiny_offset`,
entries `< 0` get `+2880`, then entries `> 2879` get `-2880`, then the array
is cast to `int32` (truncation). -/
def tinystep (thetaL thetaS : ℚ) (j : ℕ) : ℤ :=
  let v : ℚ := (j : ℚ) - tinyOffset thetaL thetaS
  let v := if v < 0 then v + HOURS_PER_DAY * tinyStepPerHour else v
  let v := if v > HOURS_PER_DAY * tinyStepPerHour - 1 then
    v - HOURS_PER_DAY * tinyStepPerHour else v
  ratTrunc v

/-- `chunk_size = int(int(params['time_step']) * (cnst.SEC_PER_MIN / cnst.SW_RAD_DT))`
(lines 571-572): `ts * (60 / 30) = 2 * ts` fine steps per output step. -/
def chunkSize (ts : ℕ) : ℕ := ts * 2

/-- `ts_per_day = cnst.HOURS_PER_DAY * cnst.MIN_PER_HOUR / int(params['time_step'])`
(lines 555-556), under the configuration requirement that the time step
divides 1440 (otherwise the float quotient is not integral). -/
def tsPerDay (ts : ℕ) : ℕ := 1440 / ts

/-- `chunk_sum` (lines 576-577): `x.reshape((len(x)/chunk_size, chunk_size)).sum(axis=1)`,
i.e. entry `i` is the sum of the `i`-th consecutive chunk. -/
def chunk_sum (xv : ℕ → ℚ) (cs i : ℕ) : ℚ :=
  ∑ j in Finset.range cs, xv (i * cs + j)

/-- The disaggregated shortwave series (lines 552-584) at flat output index
`k`: the day's rotated fine-radiation shape, chunk-summed to the output step
containing `k`, times `tmp_rad = sw_rad * daylength / cnst.SEC_PER_HOUR`
(line 553).  `tinyRadFract doy` is the `SolarGeometry` row for day-of-year
`doy+1` (the code indexes `tiny_rad_fract[day_of_year[day] - 1]`), read at an
`int32` fine index. -/
def shortwave_disagg (swRad dayl : ℕ → ℚ) (dayOfYear : ℕ → ℕ)
    (tinyRadFract : ℕ → ℤ → ℚ) (thetaL thetaS : ℚ) (ts : ℕ) (k : ℕ) : ℚ :=
  let day := k / tsPerDay ts
  let i := k % tsPerDay ts
  let tmpRad := swRad day * dayl day / SEC_PER_HOUR
  let rad := tinyRadFract (dayOfYear day - 1)
  chunk_sum (fun j => rad (tinystep thetaL thetaS j)) (chunkSize ts) i * tmpRad

/-! ## Extrema-time estimator (`set_min_max_hour`, lines 116-148) -/

/-- `rad_mask = 1 * (disagg_rad > 0)` (line 141), at one step. -/
def rad_mask (rad : ℕ → ℚ) (i : ℕ) : ℤ := if 0 < rad i then 1 else 0

/-- `np.where(np.diff(rad_mask) > 0)[0]` (lines 142-143): the ascending list
of steps where the daylight indicator switches 0 to 1 (`np.diff` at `i`
compares step `i+1` with step `i`; `nSteps` is the series length). -/
def riseSteps (rad : ℕ → ℚ) (nSteps : ℕ) : List ℕ :=
  (List.range (nSteps - 1)).filter
    (fun i => decide (0 < rad_mask rad (i + 1) - rad_mask rad i))

/-- `np.where(np.diff(rad_mask) < 0)[0]` (line 144): steps where the daylight
indicator switches 1 to 0. -/
def setSteps (rad : ℕ → ℚ) (nSteps : ℕ) : List ℕ :=
  (List.range (nSteps - 1)).filter
    (fun i => decide (rad_mask rad (i + 1) - rad_mask rad i < 0))

/-- `rise_times = np.where(diff_mask > 0)[0] * ts` (line 143); also
`t_t_min = rise_times` (line 147). -/
def riseTimes (rad : ℕ → ℚ) (nSteps ts : ℕ) : List ℚ :=
  (riseSteps rad nSteps).map (fun (i : ℕ) => (i : ℚ) * (ts : ℚ))

/-- `set_times = np.where(diff_mask < 0)[0] * ts` (line 144). -/
def setTimes (rad : ℕ → ℚ) (nSteps ts : ℕ) : List ℚ :=
  (setSteps rad nSteps).map (fun (i : ℕ) => (i : ℚ) * (ts : ℚ))

/-- `t_t_max = params['tmax_daylength_fraction'] * (set_times - rise_times)
+ rise_times` (lines 145-146), elementwise. -/
def tTmaxTimes (rad : ℕ → ℚ) (nSteps ts : ℕ) (frac : ℚ) : List ℚ :=
  List.zipWith (fun r s => frac * (s - r) + r)
    (riseTimes rad nSteps ts) (setTimes rad nSteps ts)

/-! ## Piecewise interpolation evaluators

`scipy.interpolate.PchipInterpolator` and `scipy.interpolate.interp1d` are
third-party collaborators. -/

/-- The index of the interpolation segment used for evaluation at `x`: the
largest `k ≤ m` with `xs k ≤ x` (0 if there is none).  With `m` = number of
knots minus 2 this is the piecewise-polynomial segment selection of both
scipy evaluators, including linear/cubic extrapolation beyond the ends. -/
def segIdx (xs : ℕ → ℚ) : ℕ → ℚ → ℕ
  | 0, _ => 0
  | m + 1, x => if xs (m + 1) ≤ x then m + 1 else segIdx xs m x

/-- The cubic Hermite basis combination on one segment `[x_k, x_k + h]` in
normalized coordinate `u = (x - x_k)/h`, with endpoint values `y0`, `y1` and
endpoint derivatives `d0`, `d1`. -/
def hermite01 (y0 y1 d0 d1 h u : ℚ) : ℚ :=
  y0 * (2 * u ^ 3 - 3 * u ^ 2 + 1) + h * d0 * (u ^ 3 - 2 * u ^ 2 + u)
    + y1 * (-2 * u ^ 3 + 3 * u ^ 2) + h * d1 * (u ^ 3 - u ^ 2)

/-- Modelled from the spec: `scipy.interpolate.PchipInterpolator(time, temp,
extrapolate=True)` (line 205), "a shape-preserving (monotone,
first-derivative-continuous) cubic interpolant through the padded knot
sequence", evaluated with extrapolation by the end cubics.  The PCHIP
derivative choice at the knots is abstracted as the input `ds`; every
property proved here holds for an arbitrary derivative choice.  `n` is the
number of knots. -/
def pchipEval (xs ys ds : ℕ → ℚ) (n : ℕ) (x : ℚ) : ℚ :=
  let k := segIdx xs (n - 2) x
  let h := xs (k + 1) - xs k
  hermite01 (ys k) (ys (k + 1)) (ds k) (ds (k + 1)) h ((x - xs k) / h)

/-- Modelled from the spec: `scipy.interpolate.interp1d(xs, ys,
fill_value='extrapolate')` (lines 459-460), linear interpolation between
knots with linear extrapolation from the end segments.  `n` is the number of
knots. -/
def linEval (xs ys : ℕ → ℚ) (n : ℕ) (x : ℚ) : ℚ :=
  let k := segIdx xs (n - 2) x
  ys k + (ys (k + 1) - ys k) * (x - xs k) / (xs (k + 1) - xs k)

/-! ## Temperature interpolator (`temp`, lines 151-207) -/

/-- The alternating knot sequence of lines 187-190: entry `2*d` comes from
the min-series, entry `2*d+1` from the max-series of day `d`
(`itertools.cycle` over the two iterators). -/
def interleave (a b : ℕ → ℚ) (i : ℕ) : ℚ := if i % 2 = 0 then a (i / 2) else b (i / 2)

/-- The padded knot times of lines 192-193: two synthetic knots one day
(1440 minutes, `ts_ends`) before the first two, the `2*nDays` real knots,
then copies of the last two knots one day later.  Total `2*nDays + 4` knots. -/
def paddedTime (tTmin tTmax : ℕ → ℚ) (nDays i : ℕ) : ℚ :=
  if i < 2 then interleave tTmin tTmax i - MIN_PER_HOUR * HOURS_PER_DAY
  else if i < 2 * nDays + 2 then interleave tTmin tTmax (i - 2)
  else interleave tTmin tTmax (i - 4) + MIN_PER_HOUR * HOURS_PER_DAY

/-- The padded knot values of lines 198-202: the `t_begin` pair (or, when
absent, a repeat of the first two values) in front, the alternating
min/max values, then the `t_end` pair (or a repeat of the last two). -/
def paddedTemp (tmin tmax : ℕ → ℚ) (nDays : ℕ) (tBegin tEnd : Option (ℚ × ℚ))
    (i : ℕ) : ℚ :=
  if i < 2 then
    match tBegin with
    | none => interleave tmin tmax i
    | some p => if i = 0 then p.1 else p.2
  else if i < 2 * nDays + 2 then interleave tmin tmax (i - 2)
  else
    match tEnd with
    | none => interleave tmin tmax (i - 4)
    | some p => if i = 2 * nDays + 2 then p.1 else p.2

/-- The sub-daily temperature series (lines 186-207): the monotone cubic
through the padded knots, sampled at `ts * i` (line 206).  `ds` abstracts the
PCHIP derivative estimates. -/
def temp_disagg (tTmin tTmax tmin tmax : ℕ → ℚ) (nDays : ℕ)
    (tBegin tEnd : Option (ℚ × ℚ)) (ds : ℕ → ℚ) (ts : ℕ) (i : ℕ) : ℚ :=
  pchipEval (paddedTime tTmin tTmax nDays) (paddedTemp tmin tmax nDays tBegin tEnd)
    ds (2 * nDays + 4) ((ts : ℚ) * (i : ℚ))

/-! ## Vapor pressure and relative humidity (lines 407-467)

`metsim.physics.svp` is code of this repository that is not under `src/`;
per the spec it computes "the saturation vapor pressure implied by the
... temperature", so it is carried as an abstract function parameter
`svp : ℚ → ℚ`. -/

/-- `vapor_pressure` (lines 429-467): linear interpolation of
`vp_daily / cnst.MBAR_PER_BAR` at the minimum-temperature times, evaluated on
the output grid, then `np.where(vp_sat < vp_disagg, vp_sat, vp_disagg)` with
`vp_sat = svp(temp) / cnst.MBAR_PER_BAR`. -/
def vapor_pressure_disagg (svp : ℚ → ℚ) (vpDaily : ℕ → ℚ) (temp : ℕ → ℚ)
    (tTmin : ℕ → ℚ) (nKnots : ℕ) (ts : ℕ) (i : ℕ) : ℚ :=
  let vpInterp := linEval tTmin (fun d => vpDaily d / MBAR_PER_BAR) nKnots
    ((ts : ℚ) * (i : ℚ))
  let vpSat := svp (temp i) / MBAR_PER_BAR
  if vpSat < vpInterp then vpSat else vpInterp

/-- `relative_humidity` (lines 407-426): `rh = cnst.MAX_PERCENT *
cnst.MBAR_PER_BAR * vapor_pressure / svp(temp)`, then
`rh.where(rh < cnst.MAX_PERCENT, cnst.MAX_PERCENT)` (capped at 100). -/
def relative_humidity (svp : ℚ → ℚ) (vp temp : ℕ → ℚ) (i : ℕ) : ℚ :=
  let rh := MAX_PERCENT * MBAR_PER_BAR * (vp i / svp (temp i))
  if rh < MAX_PERCENT then rh else MAX_PERCENT

/-! ## Longwave calculator (`longwave`, lines 470-525) -/

/-- The class parameters of the MetSim object that `disaggregate` reads
(the `params` dict; validated configuration is an external collaborator,
so the fields are carried as given). -/
structure Params where
  time_step : ℕ
  prec_type : String
  lw_type : String
  lw_cloud : String
  tmax_daylength_fraction : ℚ
  theta_l : ℚ
  theta_s : ℚ

/-- The transcendental float operations (`np.power`, `np.exp`, `np.sqrt`)
used inside the emissivity formulas, `metsim.physics.svp`, and the PCHIP
derivative estimation inside scipy — external numeric collaborators,
abstracted as function parameters so that every definition stays
executable.  `pchipSlopes xs ys` is the derivative array scipy chooses for
knots `(xs, ys)`. -/
structure ExternalMath where
  fpow : ℚ → ℚ → ℚ
  fexp : ℚ → ℚ
  fsqrt : ℚ → ℚ
  svp : ℚ → ℚ
  pchipSlopes : (ℕ → ℚ) → (ℕ → ℚ) → ℕ → ℚ

/-- `emissivity_calc` (lines 499-509): the dict from emissivity method name
to clear-sky emissivity formula.  Each value maps the (rescaled) sub-daily
vapor pressure series to the emissivity series; `airTemp` is the absolute
air temperature series that three of the formulas also read. -/
def emissivity_calc (ext : ExternalMath) (airTemp : ℕ → ℚ) :
    List (String × ((ℕ → ℚ) → ℕ → ℚ)) :=
  [("DEFAULT", fun vp i => vp i),
   ("TVA", fun vp i => 0.74 + 0.0049 * vp i),
   ("ANDERSON", fun vp i => 0.68 + 0.036 * ext.fpow (vp i) 0.5),
   ("BRUTSAERT", fun vp i => 1.24 * ext.fpow (vp i / airTemp i) 0.14285714),
   ("SATTERLUND", fun vp i =>
      1.08 * (1 - ext.fexp (-1 * ext.fpow (vp i) (airTemp i / 2016)))),
   ("IDSO", fun vp i => 0.7 + 5.95e-5 * vp i * ext.fexp (1500 / airTemp i)),
   ("PRATA", fun vp i =>
      1 - (1 + 46.5 * vp i / airTemp i) *
        ext.fexp (-(ext.fsqrt (1.2 + 3 * (46.5 * vp i / airTemp i)))))]

/-- `cloud_calc` (lines 510-513): the dict from cloud-adjustment method name
to the formula combining the (forward-filled, sub-daily) cloud fraction with
the clear-sky emissivity. -/
def cloud_calc (tskc : ℕ → ℚ) : List (String × ((ℕ → ℚ) → ℕ → ℚ)) :=
  [("DEFAULT", fun emis i => (1.0 + 0.17 * tskc i ^ 2) * emis i),
   ("CLOUD_DEARDORFF", fun emis i => tskc i + (1 - tskc i) * emis i)]

/-- `params['lw_type'].upper()` etc.: upper-case every character (written
over the string's character list so that it evaluates by reduction). -/
def upper (s : String) : String := ⟨s.data.map Char.toUpper⟩

/-- `longwave` (lines 470-525).  The daily cloud fraction is reindexed onto
the sub-daily grid and forward-filled (line 515), which puts day `i / spd`'s
value at step `i`; temperatures go to Kelvin, vapor pressure is rescaled by
10 (lines 516-517); then the two dict lookups select the formulas (an
unknown name is a `KeyError`, embedded as `Except.error`) and
`lwrad = emissivity * cnst.STEFAN_B * air_temp ** 4` (line 524).  Returns
the longwave series and the filled cloud-fraction series. -/
def longwave_emb (ext : ExternalMath) (airTemp vaporPres tskcDaily : ℕ → ℚ)
    (spd : ℕ) (p : Params) : Except String ((ℕ → ℚ) × (ℕ → ℚ)) :=
  let tskc : ℕ → ℚ := fun i => tskcDaily (i / spd)
  let aT : ℕ → ℚ := fun i => airTemp i + KELVIN
  let vp : ℕ → ℚ := fun i => vaporPres i * 10
  match (emissivity_calc ext aT).lookup (upper p.lw_type) with
  | none => Except.error ("KeyError: " ++ upper p.lw_type)
  | some emissFunc =>
    let emissivityClear := emissFunc vp
    match (cloud_calc tskc).lookup (upper p.lw_cloud) with
    | none => Except.error ("KeyError: " ++ upper p.lw_cloud)
    | some cloudFunc =>
      let emissivity := cloudFunc emissivityClear
      Except.ok (fun i => emissivity i * STEFAN_B * aT i ^ 4, tskc)

/-! ## Precipitation dispatch (`prec`, lines 209-385) and wind (lines 388-404) -/

/-- `prec_UNIFORM` (lines 246-250): `prec * (int(ts) / 1440)` resampled to
the `ts`-minute grid with forward fill.  The resampled series runs only to
the beginning of the last day (its index stops at the last daily timestamp),
so entries after flat index `(nDays-1)*spd` are absent (`none`); the top
level's final forward-fill closes that tail. -/
def prec_UNIFORM_emb (precD : ℕ → ℚ) (ts nDays : ℕ) : ℕ → Option ℚ :=
  fun i =>
    if i ≤ (nDays - 1) * tsPerDay ts then
      some (precD (i / tsPerDay ts) * ((ts : ℚ) / (MIN_PER_HOUR * HOURS_PER_DAY)))
    else none

/-- The strategy dict `prec_function` (lines 379-385): `P_return =
prec_function[params['prec_type'].upper()](prec, ts, **kwargs)`; an unknown
name is a `KeyError` (embedded as `Except.error`).  The TRIANGLE strategy
can itself raise before producing a series.  The first-day update (line
368) writes a `steps_per_two_days - offset = ceil(1.5 * steps_per_day)`-
entry kernel tail into the slice `P_return[:ceil(1.5 * steps_per_day)]`;
when the whole series is shorter than that (`n_days * steps_per_day <
ceil(1.5 * steps_per_day)`, so in particular on a one-day record) the
slice is truncated and pandas raises a length-mismatch `ValueError`.  The
interior-day update (line 375, reached only when `n_days ≥ 3`) writes the
full `steps_per_two_days`-entry kernel row into a `2 * steps_per_day`-wide
slice, mismatched exactly when `steps_per_two_days ≠ 2 * steps_per_day`,
i.e. when `steps_per_day` is odd.  Otherwise the branch returns the
kernel-convolved series on the full `nDays * spd` grid. -/
def prec_dispatch (precD : ℕ → ℚ) (ts : ℕ) (p : Params) (durM tPkM : ℕ → ℚ)
    (mo : ℕ → ℕ) (nDays : ℕ) : Except String (ℕ → Option ℚ) :=
  if upper p.prec_type = "UNIFORM" then
    Except.ok (prec_UNIFORM_emb precD ts nDays)
  else if upper p.prec_type = "TRIANGLE" then
    if nDays * stepsPerDay ts < ceil15 ts then
      Except.error "ValueError: cannot set using a slice indexer with a different length"
    else if 3 ≤ nDays ∧ 2 * stepsPerDay ts ≠ stepsPerTwoDays ts then
      Except.error "ValueError: operands could not be broadcast together"
    else
      Except.ok (fun i =>
        if i < nDays * tsPerDay ts then
          some (P_return_TRIANGLE ts durM tPkM mo precD nDays i)
        else none)
  else Except.error ("KeyError: " ++ upper p.prec_type)

/-- `wind` (lines 388-404): the daily value resampled with forward fill;
like UNIFORM precipitation the series stops at the last daily timestamp. -/
def wind_emb (windD : ℕ → ℚ) (ts nDays : ℕ) : ℕ → Option ℚ :=
  fun i => if i ≤ (nDays - 1) * tsPerDay ts then some (windD (i / tsPerDay ts)) else none

/-! ## Orchestrator (`disaggregate`, lines 30-113) -/

/-- The daily input record (`df_daily`): one entry per calendar day, indexed
`0 .. n_days - 1`, day `d` timestamped at minute `1440 * d` from the record
start.  `dayofyear` and `month` are the index-derived
`df_daily.index.dayofyear` / `.month` series. -/
structure DailyData where
  n_days : ℕ
  t_min : ℕ → ℚ
  t_max : ℕ → ℚ
  prec : ℕ → ℚ
  shortwave : ℕ → ℚ
  dayl : ℕ → ℚ
  vapor_pressure : ℕ → ℚ
  tskc : ℕ → ℚ
  wind : Option (ℕ → ℚ)
  dayofyear : ℕ → ℕ
  month : ℕ → ℕ

/-- `solar_geom`: the day-of-year-indexed fine-grained radiation-shape table
(`tiny_rad_fract`), read-only. -/
structure SolarGeom where
  tiny_rad_fract : ℕ → ℤ → ℚ

/-- One column of the sub-daily output frame: a partial series on the output
grid (`none` = NaN / missing). -/
def Column : Type := ℕ → Option ℚ

/-- The sub-daily output record (`df_disagg` as returned): the grid length
and one column per field. -/
structure DisaggOut where
  n_rows : ℕ
  shortwave : Column
  temp : Column
  vapor_pressure : Column
  rel_humid : Column
  longwave : Column
  tskc : Column
  prec : Column
  wind : Option Column

/-- All mutable objects reachable by `disaggregate`: the daily input frame,
the solar-geometry table and the monthly `dur` / `t_pk` inputs.  The
embedding threads this store through the call so that the frame effect
(which objects the call writes) is explicit. -/
structure Store where
  daily : DailyData
  solar : SolarGeom
  dur : ℕ → ℚ
  t_pk : ℕ → ℚ

/-- `df.fillna(method='ffill')` on one column (line 113): each missing entry
takes the nearest preceding defined value; a leading run of missing entries
stays missing. -/
def ffill (col : ℕ → Option ℚ) : ℕ → Option ℚ
  | 0 => col 0
  | i + 1 => match col (i + 1) with
    | some v => some v
    | none => ffill col i

/-- The output grid length: `date_range(index[0], index[-1] + 1 day - ts
minutes, freq=ts minutes)` (lines 69-72; `metsim.datetime.date_range` is not
under `src/` and is modelled from the spec: "regular time grid from the
first input day's start to the last input day's end minus one step, at
`time_step` spacing"), hence `⌊(span)/ts⌋ + 1` points. -/
def nDisagg (nDays ts : ℕ) : ℕ := (nDays * 1440 - ts) / ts + 1

/-- Line 77: `df_disagg['shortwave'] = shortwave(...)`.  The `dis_`
definitions are the successive columns `disaggregate` computes in dependency
order (shortwave, extrema times, temperature, vapor pressure), named so the
orchestrator below stays readable. -/
def dis_swFun (p : Params) (s : Store) : ℕ → ℚ :=
  shortwave_disagg s.daily.shortwave s.daily.dayl s.daily.dayofyear
    s.solar.tiny_rad_fract p.theta_l p.theta_s p.time_step

/-- Lines 83-84 / 147: `t_t_min = rise_times`, the minimum-temperature
times from `set_min_max_hour`, read as a total function.  Out-of-range
reads default to 0; behind the transition-count check in `disaggregate`
below every read the code performs is in range (the list has one entry per
day there). -/
def dis_tTmin (p : Params) (s : Store) : ℕ → ℚ := fun k =>
  (riseTimes (dis_swFun p s) (nDisagg s.daily.n_days p.time_step) p.time_step).getD k 0

/-- Lines 83-84 / 145-146: `t_t_max = tmax_daylength_fraction * (set_times
- rise_times) + rise_times`, with numpy broadcasting: a length-1 operand is
reused against every entry of the other, so the result has
`max(len(rise_times), len(set_times))` entries; incompatible lengths raise
at line 145 instead (the first check in `disaggregate` below).
Out-of-range reads default to 0; behind `disaggregate`'s checks every read
the code performs is in range. -/
def dis_tTmax (p : Params) (s : Store) : ℕ → ℚ := fun k =>
  let rts := riseTimes (dis_swFun p s) (nDisagg s.daily.n_days p.time_step) p.time_step
  let sts := setTimes (dis_swFun p s) (nDisagg s.daily.n_days p.time_step) p.time_step
  if k < max rts.length sts.length then
    let r := rts.getD (if rts.length = 1 then 0 else k) 0
    let sv := sts.getD (if sts.length = 1 then 0 else k) 0
    p.tmax_daylength_fraction * (sv - r) + r
  else 0

/-- Lines 86-87: `df_disagg['temp'] = temp(...)`. -/
def dis_tempFun (ext : ExternalMath) (p : Params) (tBegin tEnd : Option (ℚ × ℚ))
    (s : Store) : ℕ → ℚ :=
  temp_disagg (dis_tTmin p s) (dis_tTmax p s) s.daily.t_min s.daily.t_max
    s.daily.n_days tBegin tEnd
    (ext.pchipSlopes (paddedTime (dis_tTmin p s) (dis_tTmax p s) s.daily.n_days)
      (paddedTemp s.daily.t_min s.daily.t_max s.daily.n_days tBegin tEnd))
    p.time_step

/-- Lines 89-91: `df_disagg['vapor_pressure'] = vapor_pressure(...)`. -/
def dis_vpFun (ext : ExternalMath) (p : Params) (tBegin tEnd : Option (ℚ × ℚ))
    (s : Store) : ℕ → ℚ :=
  vapor_pressure_disagg ext.svp s.daily.vapor_pressure (dis_tempFun ext p tBegin tEnd s)
    (dis_tTmin p s) s.daily.n_days p.time_step

/-- Lines 30-113, the body of `disaggregate` proper: each column of the
fresh `df_disagg` in dependency order, then the final
`fillna(method='ffill')`.  Three `ValueError`s can abort the call before
the strategy lookups, in source order: at line 145 the `set_times -
rise_times` broadcast fails when the two transition lists have different
lengths and neither has exactly one entry; at line 205
`PchipInterpolator` rejects a knot array whose length (twice the
rise-transition count, by the interleaving of lines 187-190) differs from
the `2 * n_days` temperature values; and at lines 459-460 `interp1d`
demands at least two interpolation knots.  (`scipy`'s further requirement
that the knot abscissae be strictly increasing is not modelled here:
`pchipEval` and `linEval` are total evaluators.) -/
def disaggregate (ext : ExternalMath) (p : Params)
    (tBegin tEnd : Option (ℚ × ℚ)) (s : Store) : Store × Except String DisaggOut :=
  let rl := (riseSteps (dis_swFun p s) (nDisagg s.daily.n_days p.time_step)).length
  let sl := (setSteps (dis_swFun p s) (nDisagg s.daily.n_days p.time_step)).length
  if sl ≠ rl ∧ sl ≠ 1 ∧ rl ≠ 1 then
    (s, Except.error "ValueError: operands could not be broadcast together")
  else if rl ≠ s.daily.n_days then
    (s, Except.error "ValueError: x and y arrays must be equal in length along interpolation axis")
  else if rl < 2 then
    (s, Except.error "ValueError: x and y arrays must have at least 2 entries")
  else
  match longwave_emb ext (dis_tempFun ext p tBegin tEnd s)
      (dis_vpFun ext p tBegin tEnd s) s.daily.tskc (tsPerDay p.time_step) p with
  | Except.error e => (s, Except.error e)
  | Except.ok (lwFun, tskcFun) =>
    match prec_dispatch s.daily.prec p.time_step p s.dur s.t_pk s.daily.month
        s.daily.n_days with
    | Except.error e => (s, Except.error e)
    | Except.ok precCol =>
      let out : DisaggOut :=
        { n_rows := nDisagg s.daily.n_days p.time_step
          shortwave := ffill (fun i => some (dis_swFun p s i))
          temp := ffill (fun i => some (dis_tempFun ext p tBegin tEnd s i))
          vapor_pressure := ffill (fun i => some (dis_vpFun ext p tBegin tEnd s i))
          rel_humid := ffill (fun i => some (relative_humidity ext.svp
            (dis_vpFun ext p tBegin tEnd s) (dis_tempFun ext p tBegin tEnd s) i))
          longwave := ffill (fun i => some (lwFun i))
          tskc := ffill (fun i => some (tskcFun i))
          prec := ffill precCol
          wind := s.daily.wind.map (fun w => ffill (wind_emb w p.time_step s.daily.n_days)) }
      (s, Except.ok out)

/-! ## Concrete evaluation inputs -/

theorem tStart_lt_tPk {dur tPk : ℚ} (h : 0 < dur) : tStart dur tPk < tPk := by
  unfold tStart; linarith

theorem tPk_lt_tEnd {dur tPk : ℚ} (h : 0 < dur) : tPk < tEnd dur tPk := by
  unfold tEnd; linarith

theorem mSlope_eq {dur : ℚ} (h : dur ≠ 0) : mSlope dur = 4 / dur ^ 2 := by
  unfold mSlope I_pk
  field_simp
  ring

theorem triCDF_of_le_tStart {dur tPk t : ℚ} (h : t ≤ tStart dur tPk) :
    triCDF dur tPk t = 0 := by
  unfold triCDF
  rw [if_pos h]

theorem triCDF_rising {dur tPk t : ℚ} (h1 : tStart dur tPk ≤ t) (h2 : t ≤ tPk) :
    triCDF dur tPk t = mSlope dur * (t - tStart dur tPk) ^ 2 / 2 := by
  unfold triCDF
  split_ifs with g1
  · have ht : t = tStart dur tPk := le_antisymm g1 h1
    rw [ht]; ring
  · rfl

theorem triCDF_falling {dur tPk t : ℚ} (hdur : 0 < dur)
    (h1 : tPk ≤ t) (h2 : t ≤ tEnd dur tPk) :
    triCDF dur tPk t = 1 - mSlope dur * (tEnd dur tPk - t) ^ 2 / 2 := by
  have hS : tStart dur tPk < tPk := tStart_lt_tPk hdur
  unfold triCDF
  split_ifs with g1 g2 g3
  · exact absurd (lt_of_lt_of_le hS (le_trans h1 g1)) (lt_irrefl _)
  · have ht : t = tPk := le_antisymm g2 h1
    rw [ht, mSlope_eq (ne_of_gt hdur)]
    unfold tStart tEnd
    field_simp
    ring
  · rfl
  · have ht : t = tEnd dur tPk := le_antisymm h2 (not_lt.mp g3)
    rw [ht]; ring

theorem triCDF_of_tEnd_le {dur tPk t : ℚ} (hdur : 0 < dur)
    (h : tEnd dur tPk ≤ t) : triCDF dur tPk t = 1 := by
  have hS : tStart dur tPk < tPk := tStart_lt_tPk hdur
  have hE : tPk < tEnd dur tPk := tPk_lt_tEnd hdur
  unfold triCDF
  split_ifs with g1 g2 g3
  · linarith
  · linarith
  · linarith
  · rfl

theorem floor_mul_le {T : ℚ} (hT : 0 < T) (x : ℚ) : (⌊x / T⌋ : ℚ) * T ≤ x := by
  have h := Int.floor_le (x / T)
  have := mul_le_mul_of_nonneg_right h (le_of_lt hT)
  rwa [div_mul_cancel₀ x (ne_of_gt hT)] at this

theorem lt_floor_succ_mul {T : ℚ} (hT : 0 < T) (x : ℚ) :
    x < ((⌊x / T⌋ : ℚ) + 1) * T := by
  have h := Int.lt_floor_add_one (x / T)
  have := mul_lt_mul_of_pos_right h hT
  rwa [div_mul_cancel₀ x (ne_of_gt hT)] at this

theorem tse_eq_tss_succ (ts step : ℕ) :
    tStepEnd ts step = tStepStart ts (step + 1) := by
  unfold tStepEnd tStepStart
  push_cast
  ring

theorem tss_eq_of_eq {ts step : ℕ} {a : ℤ} (h : (step : ℤ) = a + offset ts) :
    tStepStart ts step = (a : ℚ) * (ts : ℚ) := by
  have h' : (step : ℚ) = (a : ℚ) + (offset ts : ℚ) := by exact_mod_cast h
  unfold tStepStart
  rw [h']
  ring

theorem tss_le_of_le {ts step : ℕ} {a : ℤ} (hT : (0 : ℚ) ≤ (ts : ℚ))
    (h : (step : ℤ) ≤ a + offset ts) :
    tStepStart ts step ≤ (a : ℚ) * (ts : ℚ) := by
  have h' : (step : ℚ) ≤ (a : ℚ) + (offset ts : ℚ) := by exact_mod_cast h
  unfold tStepStart
  have : (step : ℚ) - (offset ts : ℚ) ≤ (a : ℚ) := by linarith
  exact mul_le_mul_of_nonneg_right this hT

theorem le_tss_of_le {ts step : ℕ} {a : ℤ} (hT : (0 : ℚ) ≤ (ts : ℚ))
    (h : a + offset ts ≤ (step : ℤ)) :
    (a : ℚ) * (ts : ℚ) ≤ tStepStart ts step := by
  have h' : (a : ℚ) + (offset ts : ℚ) ≤ (step : ℚ) := by exact_mod_cast h
  unfold tStepStart
  have : (a : ℚ) ≤ (step : ℚ) - (offset ts : ℚ) := by linarith
  exact mul_le_mul_of_nonneg_right this hT

theorem triCDF_step_outside {ts : ℕ} {dur tPk : ℚ} (hts : 0 < ts) (hdur : 0 < dur)
    {step : ℕ}
    (h : (step : ℤ) + 1 ≤ iStart ts dur tPk ∨ iEnd ts dur tPk + 1 ≤ (step : ℤ)) :
    triCDF dur tPk (tStepEnd ts step) - triCDF dur tPk (tStepStart ts step) = 0 := by
  have hT : (0 : ℚ) < (ts : ℚ) := by exact_mod_cast hts
  rcases h with h | h
  · have h1 : ((step + 1 : ℕ) : ℤ) ≤ ⌊tStart dur tPk / (ts : ℚ)⌋ + offset ts := by
      rw [iStart] at h
      push_cast
      omega
    have hse : tStepEnd ts step ≤ tStart dur tPk := by
      rw [tse_eq_tss_succ]
      exact le_trans (tss_le_of_le (le_of_lt hT) h1) (floor_mul_le hT _)
    have hss : tStepStart ts step ≤ tStart dur tPk := by
      have hstep : tStepStart ts step ≤ tStepEnd ts step := by
        unfold tStepEnd
        linarith
      linarith
    rw [triCDF_of_le_tStart hse, triCDF_of_le_tStart hss]
    ring
  · have h1 : (⌊tEnd dur tPk / (ts : ℚ)⌋ + 1) + offset ts ≤ (step : ℤ) := by
      rw [iEnd] at h
      omega
    have hss : tEnd dur tPk ≤ tStepStart ts step := by
      have h2 := le_tss_of_le (le_of_lt hT) h1
      push_cast at h2
      exact le_trans (le_of_lt (lt_floor_succ_mul hT _)) h2
    have hse : tEnd dur tPk ≤ tStepEnd ts step := by
      have hstep : tStepStart ts step ≤ tStepEnd ts step := by
        unfold tStepEnd
        linarith
      linarith
    rw [triCDF_of_tEnd_le hdur hss, triCDF_of_tEnd_le hdur hse]
    ring

set_option maxHeartbeats 1000000 in
theorem kernel_eq_triCDF (ts : ℕ) (dur tPk : ℚ) (hts : 0 < ts) (hdur : 0 < dur)
    (step : ℕ) :
    kernel ts dur tPk step
      = triCDF dur tPk (tStepEnd ts step) - triCDF dur tPk (tStepStart ts step) := by
  have hT : (0 : ℚ) < (ts : ℚ) := by exact_mod_cast hts
  have hT0 : (0 : ℚ) ≤ (ts : ℚ) := le_of_lt hT
  have hdne : dur ≠ 0 := ne_of_gt hdur
  have hSP : tStart dur tPk < tPk := tStart_lt_tPk hdur
  have hPE : tPk < tEnd dur tPk := tPk_lt_tEnd hdur
  set A : ℤ := ⌊tStart dur tPk / (ts : ℚ)⌋ with hA
  set P : ℤ := ⌊tPk / (ts : ℚ)⌋ with hP
  set E : ℤ := ⌊tEnd dur tPk / (ts : ℚ)⌋ with hE
  have hiS : iStart ts dur tPk = A + offset ts := by rw [hA]; rfl
  have hiP : iPk ts tPk = P + offset ts := by rw [hP]; rfl
  have hiE : iEnd ts dur tPk = E + offset ts := by rw [hE]; rfl
  have hfS1 : (A : ℚ) * (ts : ℚ) ≤ tStart dur tPk := by rw [hA]; exact floor_mul_le hT _
  have hfS2 : tStart dur tPk < ((A : ℚ) + 1) * (ts : ℚ) := by
    rw [hA]; exact lt_floor_succ_mul hT _
  have hfP1 : (P : ℚ) * (ts : ℚ) ≤ tPk := by rw [hP]; exact floor_mul_le hT _
  have hfP2 : tPk < ((P : ℚ) + 1) * (ts : ℚ) := by rw [hP]; exact lt_floor_succ_mul hT _
  have hfE1 : (E : ℚ) * (ts : ℚ) ≤ tEnd dur tPk := by rw [hE]; exact floor_mul_le hT _
  have hfE2 : tEnd dur tPk < ((E : ℚ) + 1) * (ts : ℚ) := by
    rw [hE]; exact lt_floor_succ_mul hT _
  have hle1 : A ≤ P := by
    rw [hA, hP]; exact Int.floor_mono ((div_le_div_right hT).mpr (le_of_lt hSP))
  have hle2 : P ≤ E := by
    rw [hP, hE]; exact Int.floor_mono ((div_le_div_right hT).mpr (le_of_lt hPE))
  simp only [kernel]
  rw [hiS, hiP, hiE]
  split_ifs with c1 c2 c3 c4 c5 c6 c7 c8 c9 c10 c11 c12 c13 c14 c15 c16
  -- Case 1 (lines 278-299): rising edge and peak in the start bin.
  · -- step = i_start = i_t_pk: full rising area plus the falling piece to the bin end.
    obtain ⟨h1, h2⟩ := c1
    have hAP : A = P := by omega
    have hAE : A + 1 ≤ E := by omega
    have htss : tStepStart ts step = (A : ℚ) * (ts : ℚ) := tss_eq_of_eq (by omega)
    have htse : tStepEnd ts step = ((A : ℚ) + 1) * (ts : ℚ) := by
      rw [tse_eq_tss_succ, tss_eq_of_eq (a := A + 1) (by push_cast; omega)]
      push_cast
      ring
    have hAPq : (A : ℚ) = (P : ℚ) := by exact_mod_cast hAP
    have hp1 : tStepStart ts step ≤ tStart dur tPk := by rw [htss]; exact hfS1
    have hp2 : tPk ≤ tStepEnd ts step := by rw [htse, hAPq]; exact le_of_lt hfP2
    have hp3 : tStepEnd ts step ≤ tEnd dur tPk := by
      rw [htse]
      have hc : (A : ℚ) + 1 ≤ (E : ℚ) := by exact_mod_cast hAE
      exact le_trans (mul_le_mul_of_nonneg_right hc hT0) hfE1
    rw [triCDF_falling hdur hp2 hp3, triCDF_of_le_tStart hp1, mSlope_eq hdne]
    unfold tStart tEnd
    field_simp
    ring
  · -- interior falling bins: unreachable, since i_end = i_start + 1 in this case.
    exfalso
    obtain ⟨h1, h2⟩ := c1
    have hAP : A = P := by omega
    have hAPq : (A : ℚ) = (P : ℚ) := by exact_mod_cast hAP
    have hEt : tEnd dur tPk < ((A : ℚ) + 2) * (ts : ℚ) := by
      rw [hAPq]
      have h5 : (P : ℚ) * (ts : ℚ) ≤ tStart dur tPk := by rw [← hAPq]; exact hfS1
      unfold tStart at h5
      unfold tEnd
      linarith
    have hE2 : E < A + 2 := by
      rw [hE]
      apply Int.floor_lt.mpr
      rw [div_lt_iff hT]
      push_cast
      linarith
    omega
  · -- step = i_end (the spill-over bin): remaining falling triangle.
    obtain ⟨h1, h2⟩ := c1
    have hAP : A = P := by omega
    have hAE : A + 1 ≤ E := by omega
    have hAPq : (A : ℚ) = (P : ℚ) := by exact_mod_cast hAP
    have htss : tStepStart ts step = (E : ℚ) * (ts : ℚ) := tss_eq_of_eq (by omega)
    have htse : tStepEnd ts step = ((E : ℚ) + 1) * (ts : ℚ) := by
      rw [tse_eq_tss_succ, tss_eq_of_eq (a := E + 1) (by push_cast; omega)]
      push_cast
      ring
    have hp1 : tPk ≤ tStepStart ts step := by
      rw [htss]
      have hc : (A : ℚ) + 1 ≤ (E : ℚ) := by exact_mod_cast hAE
      have h3 : ((A : ℚ) + 1) * (ts : ℚ) ≤ (E : ℚ) * (ts : ℚ) :=
        mul_le_mul_of_nonneg_right hc hT0
      have h4 : tPk < ((A : ℚ) + 1) * (ts : ℚ) := by rw [hAPq]; exact hfP2
      linarith
    have hp2 : tStepStart ts step ≤ tEnd dur tPk := by rw [htss]; exact hfE1
    have hp3 : tEnd dur tPk ≤ tStepEnd ts step := by rw [htse]; exact le_of_lt hfE2
    rw [triCDF_of_tEnd_le hdur hp3, triCDF_falling hdur hp1 hp2]
    ring
  · -- outside the pulse: zero contribution.
    have hout : (step : ℤ) + 1 ≤ iStart ts dur tPk ∨ iEnd ts dur tPk + 1 ≤ (step : ℤ) := by
      rw [hiS, hiE]
      omega
    rw [triCDF_step_outside hts hdur hout]
  -- Case 2 (lines 300-317): peak and falling edge in the end bin.
  · -- step = i_start: rising piece inside the start bin.
    obtain ⟨h1, h2⟩ := c5
    have hPEe : P = E := by omega
    have hAP : A + 1 ≤ P := by omega
    have htss : tStepStart ts step = (A : ℚ) * (ts : ℚ) := tss_eq_of_eq (by omega)
    have htse : tStepEnd ts step = ((A : ℚ) + 1) * (ts : ℚ) := by
      rw [tse_eq_tss_succ, tss_eq_of_eq (a := A + 1) (by push_cast; omega)]
      push_cast
      ring
    have hp1 : tStepStart ts step ≤ tStart dur tPk := by rw [htss]; exact hfS1
    have hp2 : tStart dur tPk ≤ tStepEnd ts step := by rw [htse]; exact le_of_lt hfS2
    have hp3 : tStepEnd ts step ≤ tPk := by
      rw [htse]
      have hc : (A : ℚ) + 1 ≤ (P : ℚ) := by exact_mod_cast hAP
      exact le_trans (mul_le_mul_of_nonneg_right hc hT0) hfP1
    rw [triCDF_rising hp2 hp3, triCDF_of_le_tStart hp1]
    ring
  · -- step = i_t_pk = i_end: rising piece to the peak plus the whole falling half.
    obtain ⟨h1, h2⟩ := c5
    have hPEe : P = E := by omega
    have hAP : A + 1 ≤ P := by omega
    have hPEq : (P : ℚ) = (E : ℚ) := by exact_mod_cast hPEe
    have htss : tStepStart ts step = (P : ℚ) * (ts : ℚ) := tss_eq_of_eq (by omega)
    have htse : tStepEnd ts step = ((P : ℚ) + 1) * (ts : ℚ) := by
      rw [tse_eq_tss_succ, tss_eq_of_eq (a := P + 1) (by push_cast; omega)]
      push_cast
      ring
    have hp1 : tStart dur tPk ≤ tStepStart ts step := by
      rw [htss]
      have hc : (A : ℚ) + 1 ≤ (P : ℚ) := by exact_mod_cast hAP
      have h3 : ((A : ℚ) + 1) * (ts : ℚ) ≤ (P : ℚ) * (ts : ℚ) :=
        mul_le_mul_of_nonneg_right hc hT0
      linarith
    have hp2 : tStepStart ts step ≤ tPk := by rw [htss]; exact hfP1
    have hp3 : tEnd dur tPk ≤ tStepEnd ts step := by
      rw [htse, hPEq]
      exact le_of_lt hfE2
    rw [triCDF_of_tEnd_le hdur hp3, triCDF_rising hp1 hp2, mSlope_eq hdne]
    unfold tStart tEnd
    field_simp
    ring
  · -- outside the pulse.
    obtain ⟨h1, h2⟩ := c5
    have hPEe : P = E := by omega
    -- the rising edge spans less than one step, so A + 1 = P and nothing
    -- lies strictly between i_start and i_t_pk.
    have hd2 : dur / 2 < (ts : ℚ) := by
      have hPEq : (P : ℚ) = (E : ℚ) := by exact_mod_cast hPEe
      rw [← hPEq] at hfE2
      unfold tEnd at hfE2
      linarith
    have hA1 : P ≤ A + 1 := by
      have hq : ((P - 1 : ℤ) : ℚ) ≤ tStart dur tPk / (ts : ℚ) := by
        rw [le_div_iff hT]
        push_cast
        unfold tStart
        linarith
      have := Int.le_floor.mpr hq
      rw [← hA] at this
      omega
    have hout : (step : ℤ) + 1 ≤ iStart ts dur tPk ∨ iEnd ts dur tPk + 1 ≤ (step : ℤ) := by
      rw [hiS, hiE]
      omega
    rw [triCDF_step_outside hts hdur hout]
  -- Case 3 (lines 318-325): the whole pulse inside a single bin.
  · -- step = i_start = i_end: the bin receives the full unit mass.
    have hAE : A = E := by omega
    have htss : tStepStart ts step = (A : ℚ) * (ts : ℚ) := tss_eq_of_eq (by omega)
    have htse : tStepEnd ts step = ((A : ℚ) + 1) * (ts : ℚ) := by
      rw [tse_eq_tss_succ, tss_eq_of_eq (a := A + 1) (by push_cast; omega)]
      push_cast
      ring
    have hAEq : (A : ℚ) = (E : ℚ) := by exact_mod_cast hAE
    have hp1 : tStepStart ts step ≤ tStart dur tPk := by rw [htss]; exact hfS1
    have hp2 : tEnd dur tPk ≤ tStepEnd ts step := by
      rw [htse, hAEq]
      exact le_of_lt hfE2
    rw [triCDF_of_tEnd_le hdur hp2, triCDF_of_le_tStart hp1]
    norm_num
  · -- outside the single bin.
    have hAE : A = E := by omega
    have hout : (step : ℤ) + 1 ≤ iStart ts dur tPk ∨ iEnd ts dur tPk + 1 ≤ (step : ℤ) := by
      rw [hiS, hiE]
      omega
    rw [triCDF_step_outside hts hdur hout]
  -- Case 4 (lines 326-361): start, peak and end bins all distinct.
  · -- step = i_start: rising piece inside the start bin.
    have hAP : A + 1 ≤ P := by omega
    have htss : tStepStart ts step = (A : ℚ) * (ts : ℚ) := tss_eq_of_eq (by omega)
    have htse : tStepEnd ts step = ((A : ℚ) + 1) * (ts : ℚ) := by
      rw [tse_eq_tss_succ, tss_eq_of_eq (a := A + 1) (by push_cast; omega)]
      push_cast
      ring
    have hp1 : tStepStart ts step ≤ tStart dur tPk := by rw [htss]; exact hfS1
    have hp2 : tStart dur tPk ≤ tStepEnd ts step := by rw [htse]; exact le_of_lt hfS2
    have hp3 : tStepEnd ts step ≤ tPk := by
      rw [htse]
      have hc : (A : ℚ) + 1 ≤ (P : ℚ) := by exact_mod_cast hAP
      exact le_trans (mul_le_mul_of_nonneg_right hc hT0) hfP1
    rw [triCDF_rising hp2 hp3, triCDF_of_le_tStart hp1]
    ring
  · -- full rising bins between i_start and i_t_pk.
    obtain ⟨h3, h4⟩ := c11
    have hz1 : A + 1 + (offset ts : ℤ) ≤ (step : ℤ) := by omega
    have hz2 : (step : ℤ) ≤ P - 1 + (offset ts : ℤ) := by omega
    have hz3 : ((step + 1 : ℕ) : ℤ) ≤ P + (offset ts : ℤ) := by push_cast; omega
    have hp1 : tStart dur tPk ≤ tStepStart ts step := by
      have h5 := le_tss_of_le hT0 hz1
      push_cast at h5
      linarith
    have hp2 : tStepStart ts step ≤ tPk := by
      have h5 := tss_le_of_le hT0 hz2
      push_cast at h5
      nlinarith
    have hp3 : tStart dur tPk ≤ tStepEnd ts step := by
      unfold tStepEnd
      linarith
    have hp4 : tStepEnd ts step ≤ tPk := by
      rw [tse_eq_tss_succ]
      exact le_trans (tss_le_of_le hT0 hz3) hfP1
    rw [triCDF_rising hp3 hp4, triCDF_rising hp1 hp2]
    simp only [tStepEnd]
    ring
  · -- step = i_t_pk: rising trapezoid up to the peak plus falling trapezoid after it.
    have hAP : A + 1 ≤ P := by omega
    have hPEi : P + 1 ≤ E := by omega
    have htss : tStepStart ts step = (P : ℚ) * (ts : ℚ) := tss_eq_of_eq (by omega)
    have htse : tStepEnd ts step = ((P : ℚ) + 1) * (ts : ℚ) := by
      rw [tse_eq_tss_succ, tss_eq_of_eq (a := P + 1) (by push_cast; omega)]
      push_cast
      ring
    have hp1 : tStart dur tPk ≤ tStepStart ts step := by
      rw [htss]
      have hc : (A : ℚ) + 1 ≤ (P : ℚ) := by exact_mod_cast hAP
      have h3 : ((A : ℚ) + 1) * (ts : ℚ) ≤ (P : ℚ) * (ts : ℚ) :=
        mul_le_mul_of_nonneg_right hc hT0
      linarith
    have hp2 : tStepStart ts step ≤ tPk := by rw [htss]; exact hfP1
    have hp3 : tPk ≤ tStepEnd ts step := by rw [htse]; exact le_of_lt hfP2
    have hp4 : tStepEnd ts step ≤ tEnd dur tPk := by
      rw [htse]
      have hc : (P : ℚ) + 1 ≤ (E : ℚ) := by exact_mod_cast hPEi
      exact le_trans (mul_le_mul_of_nonneg_right hc hT0) hfE1
    rw [triCDF_falling hdur hp3 hp4, triCDF_rising hp1 hp2, mSlope_eq hdne]
    unfold tStart tEnd
    field_simp
    ring
  · -- full falling bins between i_t_pk and i_end (generic sub-branch).
    obtain ⟨h3, h4⟩ := c13
    have hz1 : P + 1 + (offset ts : ℤ) ≤ (step : ℤ) := by omega
    have hz2 : (step : ℤ) ≤ E - 1 + (offset ts : ℤ) := by omega
    have hz3 : ((step + 1 : ℕ) : ℤ) ≤ E + (offset ts : ℤ) := by push_cast; omega
    have hp1 : tPk ≤ tStepStart ts step := by
      have h5 := le_tss_of_le hT0 hz1
      push_cast at h5
      linarith
    have hp2 : tStepStart ts step ≤ tEnd dur tPk := by
      have h5 := tss_le_of_le hT0 hz2
      push_cast at h5
      nlinarith
    have hp3 : tPk ≤ tStepEnd ts step := by
      unfold tStepEnd
      linarith
    have hp4 : tStepEnd ts step ≤ tEnd dur tPk := by
      rw [tse_eq_tss_succ]
      exact le_trans (tss_le_of_le hT0 hz3) hfE1
    rw [triCDF_falling hdur hp3 hp4, triCDF_falling hdur hp1 hp2]
    simp only [tStepEnd]
    ring
  · -- full falling bin whose right edge hits t_end exactly (b set to 0).
    obtain ⟨h3, h4⟩ := c13
    have he : tStepEnd ts step = tEnd dur tPk := not_ne_iff.mp c14
    have hz1 : P + 1 + (offset ts : ℤ) ≤ (step : ℤ) := by omega
    have hp1 : tPk ≤ tStepStart ts step := by
      have h5 := le_tss_of_le hT0 hz1
      push_cast at h5
      linarith
    have hp2 : tStepStart ts step ≤ tEnd dur tPk := by
      have h5 : tStepStart ts step ≤ tStepEnd ts step := by
        unfold tStepEnd
        linarith
      linarith [he ▸ h5]
    have hp3 : tEnd dur tPk ≤ tStepEnd ts step := le_of_eq he.symm
    have he' : tStepStart ts step + (ts : ℚ) = tEnd dur tPk := by
      rw [← he]
      unfold tStepEnd
      ring
    rw [triCDF_of_tEnd_le hdur hp3, triCDF_falling hdur hp1 hp2, ← he']
    ring
  · -- step = i_end (generic sub-branch): remaining falling triangle.
    have hPEi : P + 1 ≤ E := by omega
    have htss : tStepStart ts step = (E : ℚ) * (ts : ℚ) := tss_eq_of_eq (by omega)
    have htse : tStepEnd ts step = ((E : ℚ) + 1) * (ts : ℚ) := by
      rw [tse_eq_tss_succ, tss_eq_of_eq (a := E + 1) (by push_cast; omega)]
      push_cast
      ring
    have hp1 : tPk ≤ tStepStart ts step := by
      rw [htss]
      have hc : (P : ℚ) + 1 ≤ (E : ℚ) := by exact_mod_cast hPEi
      have h3 : ((P : ℚ) + 1) * (ts : ℚ) ≤ (E : ℚ) * (ts : ℚ) :=
        mul_le_mul_of_nonneg_right hc hT0
      linarith
    have hp2 : tStepStart ts step ≤ tEnd dur tPk := by rw [htss]; exact hfE1
    have hp3 : tEnd dur tPk ≤ tStepEnd ts step := by rw [htse]; exact le_of_lt hfE2
    rw [triCDF_of_tEnd_le hdur hp3, triCDF_falling hdur hp1 hp2]
    ring
  · -- step = i_end with t_step_start = t_end exactly (b set to 0): empty bin.
    have he : tStepStart ts step = tEnd dur tPk := not_ne_iff.mp c16
    have hp1 : tEnd dur tPk ≤ tStepStart ts step := le_of_eq he.symm
    have hp2 : tEnd dur tPk ≤ tStepEnd ts step := by
      unfold tStepEnd
      linarith
    rw [triCDF_of_tEnd_le hdur hp1, triCDF_of_tEnd_le hdur hp2]
    ring
  · -- outside the pulse.
    have hout : (step : ℤ) + 1 ≤ iStart ts dur tPk ∨ iEnd ts dur tPk + 1 ≤ (step : ℤ) := by
      rw [hiS, hiE]
      omega
    rw [triCDF_step_outside hts hdur hout]

/-- Claim C1 (amended): for a positive time step and a positive monthly
duration, the discretized triangular kernel sums to exactly 1 over its
two-day support, provided the triangle's discretized support actually lies
within the two-day window (`0 ≤ i_start` and `i_end < steps_per_two_days`) —
the condition the counterexample forces. -/
theorem C1_kernel_unit_mass (ts : ℕ) (dur tPk : ℚ) (hts : 0 < ts) (hdur : 0 < dur)
    (hlo : 0 ≤ iStart ts dur tPk)
    (hhi : iEnd ts dur tPk < (stepsPerTwoDays ts : ℤ)) :
    ∑ step in Finset.range (stepsPerTwoDays ts), kernel ts dur tPk step = 1 := by
  have hT : (0 : ℚ) < (ts : ℚ) := by exact_mod_cast hts
  have hcong : ∀ step ∈ Finset.range (stepsPerTwoDays ts),
      kernel ts dur tPk step
        = triCDF dur tPk (tStepStart ts (step + 1)) - triCDF dur tPk (tStepStart ts step) := by
    intro step _
    rw [kernel_eq_triCDF ts dur tPk hts hdur step, tse_eq_tss_succ]
  rw [Finset.sum_congr rfl hcong,
    Finset.sum_range_sub (fun k => triCDF dur tPk (tStepStart ts k))]
  have h1 : triCDF dur tPk (tStepStart ts (stepsPerTwoDays ts)) = 1 := by
    apply triCDF_of_tEnd_le hdur
    have hz : ⌊tEnd dur tPk / (ts : ℚ)⌋ + 1 + offset ts ≤ (stepsPerTwoDays ts : ℤ) := by
      rw [iEnd] at hhi
      omega
    have h2 := le_tss_of_le (le_of_lt hT) hz
    push_cast at h2
    exact le_trans (le_of_lt (lt_floor_succ_mul hT _)) h2
  have h0 : triCDF dur tPk (tStepStart ts 0) = 0 := by
    apply triCDF_of_le_tStart
    have hz : ((0 : ℕ) : ℤ) = -(offset ts : ℤ) + offset ts := by omega
    have he := @tss_eq_of_eq ts 0 (-(offset ts : ℤ)) hz
    have haS : -(offset ts : ℤ) ≤ ⌊tStart dur tPk / (ts : ℚ)⌋ := by
      rw [iStart] at hlo
      omega
    have hq : ((-(offset ts : ℤ) : ℤ) : ℚ) ≤ (⌊tStart dur tPk / (ts : ℚ)⌋ : ℚ) := by
      exact_mod_cast haS
    have h3 := floor_mul_le hT (tStart dur tPk)
    have h4 := mul_le_mul_of_nonneg_right hq (le_of_lt hT)
    rw [he]
    linarith
  rw [h1, h0]
  ring

/-- Claim C1, counterexample: with a 720-minute step, `dur = 6000` minutes
and `t_pk = 720`, the triangle spills out of the two-day window and the
kernel sum falls short of 1 — so unit mass does not hold for every positive
duration and peak time as the claim states. -/
theorem C1_counterexample :
    (0 : ℚ) < 6000 ∧
      ∑ step in Finset.range (stepsPerTwoDays 720), kernel 720 6000 720 step ≠ 1 := by
  constructor
  · norm_num
  · norm_num [stepsPerTwoDays, offset, stepsPerDay, Finset.sum_range_succ, kernel,
      iStart, iEnd, iPk, tStart, tEnd, mSlope, I_pk, tStepStart, tStepEnd]

/-- Witness for C1: a 720-minute step with `dur = 360`, `t_pk = 720` meets
every hypothesis and the kernel mass is exactly 1. -/
theorem C1_kernel_unit_mass_witness :
    ((0 < 720 ∧ (0 : ℚ) < 360) ∧ 0 ≤ iStart 720 360 720 ∧
        iEnd 720 360 720 < (stepsPerTwoDays 720 : ℤ)) ∧
      ∑ step in Finset.range (stepsPerTwoDays 720), kernel 720 360 720 step = 1 :=
  ⟨⟨⟨by norm_num, by norm_num⟩,
      by norm_num [iStart, tStart, offset, stepsPerDay],
      by norm_num [iEnd, tEnd, offset, stepsPerDay, stepsPerTwoDays]⟩,
    C1_kernel_unit_mass 720 360 720 (by norm_num) (by norm_num)
      (by norm_num [iStart, tStart, offset, stepsPerDay])
      (by norm_num [iEnd, tEnd, offset, stepsPerDay, stepsPerTwoDays])⟩

/-- Claim C8 (amended): whenever the triangle's start and end land in the
same bin (`i_start = i_end` — which forces the duration below one time step,
and holds in particular for `dur = 0`), the kernel is 1 at the single bin
containing `t_pk` and 0 everywhere else: the whole unit mass in exactly one
bin, as a defined case of the kernel construction (no error path). -/
theorem C8_delta_bin (ts : ℕ) (dur tPk : ℚ) (hts : 0 < ts) (hdur : 0 ≤ dur)
    (heq : iStart ts dur tPk = iEnd ts dur tPk) :
    iPk ts tPk = iStart ts dur tPk ∧
      ∀ step : ℕ, kernel ts dur tPk step = if (step : ℤ) = iPk ts tPk then 1 else 0 := by
  have hT : (0 : ℚ) < (ts : ℚ) := by exact_mod_cast hts
  have h1 : tStart dur tPk ≤ tPk := by unfold tStart; linarith
  have h2 : tPk ≤ tEnd dur tPk := by unfold tEnd; linarith
  have hle1 : iStart ts dur tPk ≤ iPk ts tPk := by
    unfold iStart iPk
    have := Int.floor_mono ((div_le_div_right hT).mpr h1)
    omega
  have hle2 : iPk ts tPk ≤ iEnd ts dur tPk := by
    unfold iPk iEnd
    have := Int.floor_mono ((div_le_div_right hT).mpr h2)
    omega
  have hPS : iPk ts tPk = iStart ts dur tPk := by omega
  refine ⟨hPS, fun step => ?_⟩
  simp only [kernel]
  rw [if_neg (fun h => h.2 heq.symm), if_neg (fun h => h.2 heq.symm), if_pos heq, hPS]

/-- Claim C8, counterexample: with a 60-minute step, `dur = 20 < 60` and
`t_pk = 55`, the small triangle straddles a bin boundary: mass 7/8 lands in
bin 12 (the peak's bin) and mass 1/8 in bin 13 — so a duration smaller than
one time step does not put the whole mass in exactly one bin as the claim
states. -/
theorem C8_counterexample :
    ((0 : ℚ) < 20 ∧ (20 : ℚ) < 60) ∧ iPk 60 55 = 12 ∧
      kernel 60 20 55 12 = 7 / 8 ∧ kernel 60 20 55 13 = 1 / 8 := by
  refine ⟨⟨by norm_num, by norm_num⟩, ?_, ?_, ?_⟩
  · norm_num [iPk, offset, stepsPerDay]
  · norm_num [kernel, iStart, iEnd, iPk, tStart, tEnd, mSlope, I_pk,
      tStepStart, tStepEnd, offset, stepsPerDay]
  · norm_num [kernel, iStart, iEnd, iPk, tStart, tEnd, mSlope, I_pk,
      tStepStart, tStepEnd, offset, stepsPerDay]

/-- Witness for C8: `dur = 0` (the delta limit) with a 60-minute step and
`t_pk = 55`: the hypotheses hold and the kernel is the indicator of the
peak's bin. -/
theorem C8_delta_bin_witness :
    ((0 < 60 ∧ (0 : ℚ) ≤ 0) ∧ iStart 60 0 55 = iEnd 60 0 55) ∧
      (iPk 60 55 = iStart 60 0 55 ∧
        ∀ step : ℕ, kernel 60 0 55 step = if (step : ℤ) = iPk 60 55 then 1 else 0) :=
  ⟨⟨⟨by norm_num, le_refl 0⟩, by norm_num [iStart, iEnd, tStart, tEnd, offset, stepsPerDay]⟩,
    C8_delta_bin 60 0 55 (by norm_num) (le_refl 0)
      (by norm_num [iStart, iEnd, tStart, tEnd, offset, stepsPerDay])⟩

theorem offset_add_ceil15 (ts : ℕ) : offset ts + ceil15 ts = stepsPerTwoDays ts := by
  unfold stepsPerTwoDays ceil15 offset stepsPerDay
  omega

theorem i0Mid_add_ceil15 (ts a : ℕ) :
    i0Mid ts (a + 1) + ceil15 ts = (2 + a) * stepsPerDay ts := by
  unfold i0Mid ceil15
  have h1 : 2 * (a + 1) - 1 = 2 * a + 1 := by omega
  rw [h1]
  have h2 : (2 * a + 1) * stepsPerDay ts = stepsPerDay ts + 2 * (a * stepsPerDay ts) := by
    ring
  have h3 : 3 * stepsPerDay ts + 1 = (stepsPerDay ts + 1) + 2 * stepsPerDay ts := by
    ring
  rw [h2, h3, Nat.add_mul_div_left _ _ (by norm_num : 0 < 2),
    Nat.add_mul_div_left _ _ (by norm_num : 0 < 2)]
  have h4 : (2 + a) * stepsPerDay ts = 2 * stepsPerDay ts + a * stepsPerDay ts := by
    ring
  rw [h4]
  omega

/-- Claim C2: under the TRIANGLE strategy the first and the last day's
kernels are renormalized over their in-bounds half-windows (lines 368 and
371), so the sum of that day's contributions to the output equals that day's
full `precip_total` — exactly, before the final rounding to 5 decimals.  The
hypotheses ask for at least two days (with one day the code's first-day slice
is ill-formed) and for the two in-bounds half-window masses to be nonzero
(otherwise the renormalizing division is degenerate). -/
theorem C2_boundary_mass (ts : ℕ) (durM tPkM : ℕ → ℚ) (mo : ℕ → ℕ)
    (precD : ℕ → ℚ) (nDays : ℕ) (hn : 2 ≤ nDays)
    (hF : firstDayNorm ts (durM (mo 0 - 1)) (tPkM (mo 0 - 1)) ≠ 0)
    (hL : lastDayNorm ts (durM (mo (nDays - 1) - 1)) (tPkM (mo (nDays - 1) - 1)) ≠ 0) :
    ∑ i in Finset.range (nDays * stepsPerDay ts),
        contrib ts durM tPkM mo precD nDays 0 i = precD 0 ∧
      ∑ i in Finset.range (nDays * stepsPerDay ts),
        contrib ts durM tPkM mo precD nDays (nDays - 1) i = precD (nDays - 1) := by
  obtain ⟨a, rfl⟩ : ∃ a, nDays = 2 + a := ⟨nDays - 2, by omega⟩
  have hc15 : ceil15 ts ≤ (2 + a) * stepsPerDay ts := by
    have h1 : ceil15 ts ≤ 2 * stepsPerDay ts := by unfold ceil15; omega
    have h2 : 2 * stepsPerDay ts ≤ (2 + a) * stepsPerDay ts :=
      Nat.mul_le_mul_right _ (by omega)
    omega
  constructor
  · -- first day: the tail slice `kernels[m, offset:]` renormalized by its own sum.
    have hstep : ∀ i, contrib ts durM tPkM mo precD (2 + a) 0 i
        = if i < ceil15 ts then
            1 / firstDayNorm ts (durM (mo 0 - 1)) (tPkM (mo 0 - 1)) * precD 0 *
              kernel ts (durM (mo 0 - 1)) (tPkM (mo 0 - 1)) (offset ts + i)
          else 0 := by
      intro i
      simp [contrib]
    rw [Finset.sum_congr rfl (fun i _ => hstep i),
      ← Finset.sum_subset (Finset.range_subset.mpr hc15)
        (fun x _ hx => by rw [if_neg (by simpa using hx)]),
      Finset.sum_congr rfl
        (fun i hi => if_pos (Finset.mem_range.mp hi)),
      ← Finset.mul_sum]
    have hre : firstDayNorm ts (durM (mo 0 - 1)) (tPkM (mo 0 - 1))
        = ∑ i in Finset.range (ceil15 ts),
            kernel ts (durM (mo 0 - 1)) (tPkM (mo 0 - 1)) (offset ts + i) := by
      rw [firstDayNorm, Finset.sum_Ico_eq_sum_range]
      have h5 : stepsPerTwoDays ts - offset ts = ceil15 ts := by
        have := offset_add_ceil15 ts
        omega
      rw [h5]
    rw [← hre]
    field_simp
  · -- last day: the head slice `kernels[m, :ceil15]` renormalized by its own sum.
    have hd1 : 2 + a - 1 = a + 1 := by omega
    rw [hd1] at hL ⊢
    have hkey := i0Mid_add_ceil15 ts a
    have hstep : ∀ i, contrib ts durM tPkM mo precD (2 + a) (a + 1) i
        = if i0Mid ts (a + 1) ≤ i ∧ i < i0Mid ts (a + 1) + ceil15 ts then
            1 / lastDayNorm ts (durM (mo (a + 1) - 1)) (tPkM (mo (a + 1) - 1)) *
              precD (a + 1) *
              kernel ts (durM (mo (a + 1) - 1)) (tPkM (mo (a + 1) - 1))
                (i - i0Mid ts (a + 1))
          else 0 := by
      intro i
      rw [contrib, if_neg (by omega), if_pos (by omega)]
    rw [Finset.sum_congr rfl (fun i _ => hstep i)]
    have hmem : ∀ i : ℕ,
        (i0Mid ts (a + 1) ≤ i ∧ i < i0Mid ts (a + 1) + ceil15 ts)
          ↔ i ∈ Finset.Ico (i0Mid ts (a + 1)) (i0Mid ts (a + 1) + ceil15 ts) := by
      intro i
      simp [Finset.mem_Ico]
    rw [Finset.sum_congr rfl (fun i _ => if_congr (hmem i) rfl rfl),
      Finset.sum_ite_mem]
    have hinter : Finset.range ((2 + a) * stepsPerDay ts) ∩
        Finset.Ico (i0Mid ts (a + 1)) (i0Mid ts (a + 1) + ceil15 ts)
          = Finset.Ico (i0Mid ts (a + 1)) (i0Mid ts (a + 1) + ceil15 ts) := by
      apply Finset.inter_eq_right.mpr
      intro x hx
      rw [Finset.mem_Ico] at hx
      rw [Finset.mem_range]
      omega
    rw [hinter, Finset.sum_Ico_eq_sum_range]
    have h6 : i0Mid ts (a + 1) + ceil15 ts - i0Mid ts (a + 1) = ceil15 ts := by omega
    rw [h6]
    have h7 : ∀ i, i0Mid ts (a + 1) + i - i0Mid ts (a + 1) = i := fun i => by omega
    rw [Finset.sum_congr rfl (fun i _ => by rw [h7 i]), ← Finset.mul_sum]
    have hre : lastDayNorm ts (durM (mo (a + 1) - 1)) (tPkM (mo (a + 1) - 1))
        = ∑ i in Finset.range (ceil15 ts),
            kernel ts (durM (mo (a + 1) - 1)) (tPkM (mo (a + 1) - 1)) i := rfl
    rw [← hre]
    field_simp

/-- Witness for C2: two days, 720-minute steps, January kernels with
`dur = 360`, `t_pk = 720`; both half-window masses are 1 and each boundary
day's contributions sum to its precipitation total. -/
theorem C2_boundary_mass_witness :
    (2 ≤ 2 ∧
        firstDayNorm 720 ((fun _ => (360 : ℚ)) ((fun _ => 1) 0 - 1))
            ((fun _ => (720 : ℚ)) ((fun _ => 1) 0 - 1)) ≠ 0 ∧
        lastDayNorm 720 ((fun _ => (360 : ℚ)) ((fun _ => 1) (2 - 1) - 1))
            ((fun _ => (720 : ℚ)) ((fun _ => 1) (2 - 1) - 1)) ≠ 0) ∧
      (∑ i in Finset.range (2 * stepsPerDay 720),
          contrib 720 (fun _ => 360) (fun _ => 720) (fun _ => 1)
            (fun d => if d = 0 then 5 else 7) 2 0 i
          = (fun d : ℕ => if d = 0 then (5 : ℚ) else 7) 0 ∧
        ∑ i in Finset.range (2 * stepsPerDay 720),
          contrib 720 (fun _ => 360) (fun _ => 720) (fun _ => 1)
            (fun d => if d = 0 then 5 else 7) 2 (2 - 1) i
          = (fun d : ℕ => if d = 0 then (5 : ℚ) else 7) (2 - 1)) :=
  ⟨⟨le_refl 2,
      by
        norm_num [firstDayNorm, stepsPerTwoDays, offset, stepsPerDay,
          Finset.sum_Ico_eq_sum_range, Finset.sum_range_succ, kernel, iStart, iEnd,
          iPk, tStart, tEnd, mSlope, I_pk, tStepStart, tStepEnd],
      by
        norm_num [lastDayNorm, ceil15, offset, stepsPerDay,
          Finset.sum_range_succ, kernel, iStart, iEnd,
          iPk, tStart, tEnd, mSlope, I_pk, tStepStart, tStepEnd]⟩,
    C2_boundary_mass 720 (fun _ => 360) (fun _ => 720) (fun _ => 1)
      (fun d => if d = 0 then 5 else 7) 2 (le_refl 2)
      (by
        norm_num [firstDayNorm, stepsPerTwoDays, offset, stepsPerDay,
          Finset.sum_Ico_eq_sum_range, Finset.sum_range_succ, kernel, iStart, iEnd,
          iPk, tStart, tEnd, mSlope, I_pk, tStepStart, tStepEnd])
      (by
        norm_num [lastDayNorm, ceil15, offset, stepsPerDay,
          Finset.sum_range_succ, kernel, iStart, iEnd,
          iPk, tStart, tEnd, mSlope, I_pk, tStepStart, tStepEnd])⟩

/-- Claim C3 (amended): each day's output-step weight (the chunk-summed,
rotated radiation-shape values) is multiplied by
`shortwave_total[day] × daylength[day] / 3600` — the divisor the code uses is
`cnst.SEC_PER_HOUR` (seconds per hour), not the number of seconds per day. -/
theorem C3_shortwave_scale (swRad dayl : ℕ → ℚ) (dayOfYear : ℕ → ℕ)
    (tinyRadFract : ℕ → ℤ → ℚ) (thetaL thetaS : ℚ) (ts : ℕ) (day i : ℕ)
    (hi : i < tsPerDay ts) :
    shortwave_disagg swRad dayl dayOfYear tinyRadFract thetaL thetaS ts
        (day * tsPerDay ts + i)
      = chunk_sum (fun j => tinyRadFract (dayOfYear day - 1) (tinystep thetaL thetaS j))
          (chunkSize ts) i * (swRad day * dayl day / 3600) := by
  have hpos : 0 < tsPerDay ts := lt_of_le_of_lt (Nat.zero_le i) hi
  have hdiv : (day * tsPerDay ts + i) / tsPerDay ts = day := by
    rw [Nat.mul_comm day, Nat.mul_add_div hpos, Nat.div_eq_of_lt hi, Nat.add_zero]
  have hmod : (day * tsPerDay ts + i) % tsPerDay ts = i := by
    rw [Nat.mul_comm day, Nat.mul_add_mod, Nat.mod_eq_of_lt hi]
  simp only [shortwave_disagg, hdiv, hmod, SEC_PER_HOUR]

/-- Claim C3, counterexample: with a constant radiation-shape table summing
to 1 over the day, `shortwave_total = 1` and `daylength = 86400` s, the code
produces `86400 / 3600 = 24`, not the claim's
`weight × shortwave_total × daylength / seconds_per_day = 1`. -/
theorem C3_counterexample :
    shortwave_disagg (fun _ => 1) (fun _ => 86400) (fun _ => 1) (fun _ _ => 1 / 2880)
        0 0 1440 0
      ≠ chunk_sum (fun j => (fun (_ : ℕ) (_ : ℤ) => (1 : ℚ) / 2880)
            ((fun _ : ℕ => 1) 0 - 1) (tinystep 0 0 j)) (chunkSize 1440) 0 *
          ((fun _ : ℕ => (1 : ℚ)) 0 * (fun _ : ℕ => (86400 : ℚ)) 0 / 86400) := by
  intro h
  have hL : shortwave_disagg (fun _ => 1) (fun _ => 86400) (fun _ => 1)
      (fun _ _ => 1 / 2880) 0 0 1440 0 = 24 := by
    unfold shortwave_disagg chunk_sum
    norm_num [tsPerDay, chunkSize, SEC_PER_HOUR, Finset.sum_const, nsmul_eq_mul]
  have hR : chunk_sum (fun j => (fun (_ : ℕ) (_ : ℤ) => (1 : ℚ) / 2880)
        ((fun _ : ℕ => 1) 0 - 1) (tinystep 0 0 j)) (chunkSize 1440) 0 *
      ((fun _ : ℕ => (1 : ℚ)) 0 * (fun _ : ℕ => (86400 : ℚ)) 0 / 86400) = 1 := by
    unfold chunk_sum
    norm_num [chunkSize, Finset.sum_const, nsmul_eq_mul]
  rw [hL, hR] at h
  norm_num at h

/-- Witness for C3: the amended scaling at a concrete one-step-per-day
configuration. -/
theorem C3_shortwave_scale_witness :
    0 < tsPerDay 1440 ∧
      shortwave_disagg (fun _ => 1) (fun _ => 86400) (fun _ => 1) (fun _ _ => 1 / 2880)
          0 0 1440 (0 * tsPerDay 1440 + 0)
        = chunk_sum (fun j => (fun (_ : ℕ) (_ : ℤ) => (1 : ℚ) / 2880)
              ((fun _ : ℕ => 1) 0 - 1) (tinystep 0 0 j)) (chunkSize 1440) 0 *
            ((fun _ : ℕ => (1 : ℚ)) 0 * (fun _ : ℕ => (86400 : ℚ)) 0 / 3600) :=
  ⟨by norm_num [tsPerDay],
    C3_shortwave_scale (fun _ => 1) (fun _ => 86400) (fun _ => 1) (fun _ _ => 1 / 2880)
      0 0 1440 0 0 (by norm_num [tsPerDay])⟩

theorem zipWith_getElem?_some {α β γ : Type} (f : α → β → γ) :
    ∀ (l₁ : List α) (l₂ : List β) (n : ℕ) (a : α) (b : β),
      l₁[n]? = some a → l₂[n]? = some b →
        (List.zipWith f l₁ l₂)[n]? = some (f a b) := by
  intro l₁
  induction l₁ with
  | nil => intro l₂ n a b h1 _; simp at h1
  | cons x xs ih =>
    intro l₂ n a b h1 h2
    cases l₂ with
    | nil => simp at h2
    | cons y ys =>
      cases n with
      | zero =>
        simp_all
      | succ m =>
        simp only [List.getElem?_cons_succ] at h1 h2
        simpa using ih ys m a b h1 h2

/-- Claim C4 (amended): for the day-`d` entries of the extrema-time arrays,
given that the `d`-th detected sunrise step `r` and sunset step `s` exist,
the minimum-temperature time is the sunrise time `r * ts` and the
maximum-temperature time is `t_min + frac * (set_time - rise_time)` — but
both are expressed in minutes from the start of the RECORD (`np.where`
returns global step indices): when the `d`-th sunrise lies within day `d`,
the value equals `1440 * d` plus the sunrise's minutes from that day's
start, not the in-day minutes alone. -/
theorem C4_extrema_times (rad : ℕ → ℚ) (nSteps ts : ℕ) (frac : ℚ) (d r s : ℕ)
    (hts : ts * stepsPerDay ts = 1440)
    (hr : (riseSteps rad nSteps)[d]? = some r)
    (hs : (setSteps rad nSteps)[d]? = some s)
    (hd : stepsPerDay ts * d ≤ r) :
    (riseTimes rad nSteps ts)[d]? = some ((r : ℚ) * (ts : ℚ)) ∧
      (r : ℚ) * (ts : ℚ)
        = 1440 * (d : ℚ) + ((r - stepsPerDay ts * d : ℕ) : ℚ) * (ts : ℚ) ∧
      (tTmaxTimes rad nSteps ts frac)[d]?
        = some (frac * ((s : ℚ) * (ts : ℚ) - (r : ℚ) * (ts : ℚ)) + (r : ℚ) * (ts : ℚ)) := by
  have h1 : (riseTimes rad nSteps ts)[d]? = some ((r : ℚ) * (ts : ℚ)) := by
    rw [riseTimes, List.getElem?_map, hr]
    rfl
  refine ⟨h1, ?_, ?_⟩
  · have hsub : ((r - stepsPerDay ts * d : ℕ) : ℚ)
        = (r : ℚ) - (stepsPerDay ts : ℚ) * (d : ℚ) := by
      push_cast [Nat.cast_sub hd]
      ring
    have hcast : (ts : ℚ) * (stepsPerDay ts : ℚ) = 1440 := by
      exact_mod_cast congrArg (Nat.cast : ℕ → ℚ) hts
    rw [hsub]
    linear_combination (d : ℚ) * hcast
  · have h2 : (setTimes rad nSteps ts)[d]? = some ((s : ℚ) * (ts : ℚ)) := by
      rw [setTimes, List.getElem?_map, hs]
      rfl
    exact zipWith_getElem?_some _ _ _ _ _ _ h1 h2

/-- Claim C4, counterexample: two days at 60-minute steps with daylight at
in-day steps 6..17; day 1's minimum-temperature time is reported as
`29 * 60 = 1740` minutes (from the record start), not the `300` minutes from
the start of that day that the claim asserts. -/
theorem C4_counterexample :
    (riseTimes (fun i => if 6 ≤ i % 24 ∧ i % 24 < 18 then (1 : ℚ) else 0) 48 60)[1]?
        = some 1740 ∧ (1740 : ℚ) ≠ 300 := by
  constructor
  · rw [riseTimes, List.getElem?_map,
      show (riseSteps (fun i => if 6 ≤ i % 24 ∧ i % 24 < 18 then (1 : ℚ) else 0) 48)[1]?
        = some 29 from by decide]
    norm_num
  · norm_num

/-- Witness for C4: the same two-day configuration, day `d = 1` with sunrise
step 29 and sunset step 41. -/
theorem C4_extrema_times_witness :
    (60 * stepsPerDay 60 = 1440 ∧
        (riseSteps (fun i => if 6 ≤ i % 24 ∧ i % 24 < 18 then (1 : ℚ) else 0) 48)[1]?
          = some 29 ∧
        (setSteps (fun i => if 6 ≤ i % 24 ∧ i % 24 < 18 then (1 : ℚ) else 0) 48)[1]?
          = some 41 ∧
        stepsPerDay 60 * 1 ≤ 29) ∧
      ((riseTimes (fun i => if 6 ≤ i % 24 ∧ i % 24 < 18 then (1 : ℚ) else 0) 48 60)[1]?
          = some ((29 : ℚ) * (60 : ℚ)) ∧
        (29 : ℚ) * (60 : ℚ)
          = 1440 * (1 : ℚ) + ((29 - stepsPerDay 60 * 1 : ℕ) : ℚ) * (60 : ℚ) ∧
        (tTmaxTimes (fun i => if 6 ≤ i % 24 ∧ i % 24 < 18 then (1 : ℚ) else 0) 48 60
            (1 / 2))[1]?
          = some (1 / 2 * ((41 : ℚ) * (60 : ℚ) - (29 : ℚ) * (60 : ℚ)) + (29 : ℚ) * (60 : ℚ))) :=
  ⟨⟨by norm_num [stepsPerDay], by decide, by decide, by norm_num [stepsPerDay]⟩,
    C4_extrema_times (fun i => if 6 ≤ i % 24 ∧ i % 24 < 18 then (1 : ℚ) else 0) 48 60
      (1 / 2) 1 29 41 (by norm_num [stepsPerDay]) (by decide) (by decide)
      (by norm_num [stepsPerDay])⟩

theorem segIdx_eq (xs : ℕ → ℚ) (x : ℚ) :
    ∀ m k : ℕ, k ≤ m → xs k ≤ x → (∀ j, k < j → j ≤ m → ¬ xs j ≤ x) →
      segIdx xs m x = k := by
  intro m
  induction m with
  | zero =>
    intro k hk _ _
    have hk0 : k = 0 := by omega
    rw [hk0]
    rfl
  | succ m ih =>
    intro k hk h1 h2
    rw [segIdx]
    by_cases hc : xs (m + 1) ≤ x
    · rcases Nat.lt_or_ge k (m + 1) with h | h
      · exact absurd hc (h2 (m + 1) h (le_refl _))
      · rw [if_pos hc]
        omega
    · rw [if_neg hc]
      have hk' : k ≤ m := by
        rcases Nat.lt_or_ge k (m + 1) with h | h
        · omega
        · exfalso
          have hkm : k = m + 1 := by omega
          rw [hkm] at h1
          exact hc h1
      exact ih k hk' h1 (fun j hj hj' => h2 j hj (by omega))

/-- Evaluating the piecewise cubic at the `k`-th knot returns the `k`-th
value, for any choice of knot derivatives, whenever the knot times are
strictly increasing — the interpolation property of the Hermite scheme. -/
theorem pchipEval_at_knot (xs ys ds : ℕ → ℚ) (n k : ℕ)
    (hmono : ∀ j, j + 1 < n → xs j < xs (j + 1)) (hk : k < n - 1) :
    pchipEval xs ys ds n (xs k) = ys k := by
  have hchain : ∀ j i : ℕ, i < j → j ≤ n - 1 → xs i < xs j := by
    intro j
    induction j with
    | zero => intro i h _; omega
    | succ m ih =>
      intro i h hle
      rcases Nat.lt_or_ge i m with h2 | h2
      · exact lt_trans (ih i h2 (by omega)) (hmono m (by omega))
      · have hi : i = m := by omega
        rw [hi]
        exact hmono m (by omega)
  have hseg : segIdx xs (n - 2) (xs k) = k := by
    apply segIdx_eq xs (xs k) (n - 2) k (by omega) (le_refl _)
    intro j hj hj'
    have := hchain j k hj (by omega)
    linarith
  simp only [pchipEval]
  rw [hseg, sub_self, zero_div]
  unfold hermite01
  ring

theorem paddedTime_knot_min (tTmin tTmax : ℕ → ℚ) (nDays d : ℕ) (hd : d < nDays) :
    paddedTime tTmin tTmax nDays (2 + 2 * d) = tTmin d := by
  unfold paddedTime
  rw [if_neg (by omega), if_pos (by omega)]
  unfold interleave
  have h1 : 2 + 2 * d - 2 = 2 * d := by omega
  rw [h1, if_pos (by omega : 2 * d % 2 = 0)]
  congr 1
  omega

theorem paddedTime_knot_max (tTmin tTmax : ℕ → ℚ) (nDays d : ℕ) (hd : d < nDays) :
    paddedTime tTmin tTmax nDays (3 + 2 * d) = tTmax d := by
  unfold paddedTime
  rw [if_neg (by omega), if_pos (by omega)]
  unfold interleave
  have h1 : 3 + 2 * d - 2 = 2 * d + 1 := by omega
  rw [h1, if_neg (by omega : ¬(2 * d + 1) % 2 = 0)]
  congr 1
  omega

theorem paddedTemp_knot_min (tmin tmax : ℕ → ℚ) (nDays d : ℕ)
    (tB tE : Option (ℚ × ℚ)) (hd : d < nDays) :
    paddedTemp tmin tmax nDays tB tE (2 + 2 * d) = tmin d := by
  unfold paddedTemp
  rw [if_neg (by omega), if_pos (by omega)]
  unfold interleave
  have h1 : 2 + 2 * d - 2 = 2 * d := by omega
  rw [h1, if_pos (by omega : 2 * d % 2 = 0)]
  congr 1
  omega

theorem paddedTemp_knot_max (tmin tmax : ℕ → ℚ) (nDays d : ℕ)
    (tB tE : Option (ℚ × ℚ)) (hd : d < nDays) :
    paddedTemp tmin tmax nDays tB tE (3 + 2 * d) = tmax d := by
  unfold paddedTemp
  rw [if_neg (by omega), if_pos (by omega)]
  unfold interleave
  have h1 : 3 + 2 * d - 2 = 2 * d + 1 := by omega
  rw [h1, if_neg (by omega : ¬(2 * d + 1) % 2 = 0)]
  congr 1
  omega

/-- Claim C5: for every day `d`, the fitted temperature interpolant (the
monotone cubic through the padded alternating knot sequence of `temp`,
lines 187-207) evaluates to exactly `t_min[d]` at day `d`'s estimated
minimum-temperature time and to exactly `t_max[d]` at its estimated
maximum-temperature time, for any knot-derivative choice, provided the
padded knot times are strictly increasing (scipy's `PchipInterpolator`
requires a strictly increasing abscissa). -/
theorem C5_interpolation_exact (tTmin tTmax tmin tmax : ℕ → ℚ) (nDays : ℕ)
    (tB tE : Option (ℚ × ℚ)) (ds : ℕ → ℚ) (d : ℕ) (hd : d < nDays)
    (hmono : ∀ j, j + 1 < 2 * nDays + 4 →
      paddedTime tTmin tTmax nDays j < paddedTime tTmin tTmax nDays (j + 1)) :
    pchipEval (paddedTime tTmin tTmax nDays) (paddedTemp tmin tmax nDays tB tE)
        ds (2 * nDays + 4) (tTmin d) = tmin d ∧
      pchipEval (paddedTime tTmin tTmax nDays) (paddedTemp tmin tmax nDays tB tE)
        ds (2 * nDays + 4) (tTmax d) = tmax d := by
  constructor
  · have h1 := pchipEval_at_knot (paddedTime tTmin tTmax nDays)
      (paddedTemp tmin tmax nDays tB tE) ds (2 * nDays + 4) (2 + 2 * d)
      hmono (by omega)
    rw [paddedTime_knot_min tTmin tTmax nDays d hd] at h1
    rw [h1]
    exact paddedTemp_knot_min tmin tmax nDays d tB tE hd
  · have h1 := pchipEval_at_knot (paddedTime tTmin tTmax nDays)
      (paddedTemp tmin tmax nDays tB tE) ds (2 * nDays + 4) (3 + 2 * d)
      hmono (by omega)
    rw [paddedTime_knot_max tTmin tTmax nDays d hd] at h1
    rw [h1]
    exact paddedTemp_knot_max tmin tmax nDays d tB tE hd

/-- Witness for C5: one day with sunrise knot at minute 420 and max-temp knot
at minute 900; the padded 6-knot sequence is strictly increasing and the
interpolant reproduces `t_min = 5` and `t_max = 15` at those times. -/
theorem C5_interpolation_exact_witness :
    (0 < 1 ∧ (∀ j, j + 1 < 2 * 1 + 4 →
        paddedTime (fun _ => 420) (fun _ => 900) 1 j
          < paddedTime (fun _ => 420) (fun _ => 900) 1 (j + 1))) ∧
      (pchipEval (paddedTime (fun _ => 420) (fun _ => 900) 1)
          (paddedTemp (fun _ => 5) (fun _ => 15) 1 none none)
          (fun _ => 0) (2 * 1 + 4) ((fun _ : ℕ => (420 : ℚ)) 0) = (fun _ : ℕ => (5 : ℚ)) 0 ∧
        pchipEval (paddedTime (fun _ => 420) (fun _ => 900) 1)
          (paddedTemp (fun _ => 5) (fun _ => 15) 1 none none)
          (fun _ => 0) (2 * 1 + 4) ((fun _ : ℕ => (900 : ℚ)) 0) = (fun _ : ℕ => (15 : ℚ)) 0) :=
  ⟨⟨by norm_num, by intro j hj; have hj4 : j ≤ 4 := (by omega); interval_cases j <;> norm_num [paddedTime, interleave, MIN_PER_HOUR, HOURS_PER_DAY]⟩,
    C5_interpolation_exact (fun _ => 420) (fun _ => 900) (fun _ => 5) (fun _ => 15) 1
      none none (fun _ => 0) 0 (by norm_num)
      (by intro j hj; have hj4 : j ≤ 4 := (by omega); interval_cases j <;> norm_num [paddedTime, interleave, MIN_PER_HOUR, HOURS_PER_DAY])⟩

/-- Claim C6 (amended): at every output step the disaggregated vapor
pressure is at most the saturation pressure at the disaggregated temperature
(in the code's bar units, `svp(temp)/MBAR_PER_BAR`), and the relative
humidity is at most 100; the lower bound `0 ≤ rel_humid` additionally needs
the interpolated vapor pressure to be nonnegative and `svp(temp) > 0` — the
code does not clamp vapor pressure from below, so linear extrapolation can
drive it (and the relative humidity) negative. -/
theorem C6_saturation_bound (svp : ℚ → ℚ) (vpDaily temp tTmin : ℕ → ℚ)
    (nKnots ts i : ℕ) :
    vapor_pressure_disagg svp vpDaily temp tTmin nKnots ts i
        ≤ svp (temp i) / MBAR_PER_BAR ∧
      relative_humidity svp (vapor_pressure_disagg svp vpDaily temp tTmin nKnots ts)
        temp i ≤ 100 ∧
      (0 ≤ vapor_pressure_disagg svp vpDaily temp tTmin nKnots ts i →
        0 < svp (temp i) →
          0 ≤ relative_humidity svp (vapor_pressure_disagg svp vpDaily temp tTmin nKnots ts)
            temp i) := by
  refine ⟨?_, ?_, ?_⟩
  · simp only [vapor_pressure_disagg]
    split_ifs with h
    · exact le_refl _
    · exact le_of_not_lt h
  · simp only [relative_humidity, MAX_PERCENT]
    split_ifs with h
    · exact le_of_lt h
    · exact le_refl _
  · intro hvp hsvp
    simp only [relative_humidity, MAX_PERCENT, MBAR_PER_BAR]
    split_ifs with h
    · have h1 : 0 ≤ vapor_pressure_disagg svp vpDaily temp tTmin nKnots ts i
          / svp (temp i) := div_nonneg hvp (le_of_lt hsvp)
      positivity
    · norm_num

/-- Claim C6, counterexample: two days with minimum-temperature times 300
and 1800 minutes and daily vapor pressures 1 and 30 mbar; at step 0 the
backward linear extrapolation gives a negative vapor pressure, the
saturation clamp (an upper clamp only) keeps it, and the relative humidity
is negative — outside the claimed interval [0, 100]. -/
theorem C6_counterexample :
    relative_humidity (fun _ => 2337 / 100)
        (vapor_pressure_disagg (fun _ => 2337 / 100) (fun d => if d = 0 then 1 else 30)
          (fun _ => 20) (fun d => if d = 0 then 300 else 1800) 2 60)
        (fun _ => 20) 0 < 0 := by
  norm_num [relative_humidity, vapor_pressure_disagg, linEval, segIdx,
    MBAR_PER_BAR, MAX_PERCENT]

/-- Witness for C6 at the counterexample's configuration and step 4 (time
240, where the interpolated vapor pressure is still nonnegative). -/
theorem C6_saturation_bound_witness :
    vapor_pressure_disagg (fun _ => 2337 / 100) (fun d => if d = 0 then 1 else 30)
        (fun _ => 20) (fun d => if d = 0 then 300 else 1800) 2 60 4
        ≤ (fun _ : ℚ => (2337 : ℚ) / 100) ((fun _ : ℕ => (20 : ℚ)) 4) / MBAR_PER_BAR ∧
      relative_humidity (fun _ => 2337 / 100)
        (vapor_pressure_disagg (fun _ => 2337 / 100) (fun d => if d = 0 then 1 else 30)
          (fun _ => 20) (fun d => if d = 0 then 300 else 1800) 2 60)
        (fun _ => 20) 4 ≤ 100 ∧
      (0 ≤ vapor_pressure_disagg (fun _ => 2337 / 100) (fun d => if d = 0 then 1 else 30)
          (fun _ => 20) (fun d => if d = 0 then 300 else 1800) 2 60 4 →
        0 < (fun _ : ℚ => (2337 : ℚ) / 100) ((fun _ : ℕ => (20 : ℚ)) 4) →
          0 ≤ relative_humidity (fun _ => 2337 / 100)
            (vapor_pressure_disagg (fun _ => 2337 / 100) (fun d => if d = 0 then 1 else 30)
              (fun _ => 20) (fun d => if d = 0 then 300 else 1800) 2 60)
            (fun _ => 20) 4) :=
  C6_saturation_bound (fun _ => 2337 / 100) (fun d => if d = 0 then 1 else 30)
    (fun _ => 20) (fun d => if d = 0 then 300 else 1800) 2 60 4

/-! ## Dispatch and orchestrator lemmas -/

theorem lookup_none_of_not_mem {β : Type} (k : String) :
    ∀ l : List (String × β), k ∉ l.map Prod.fst → l.lookup k = none := by
  intro l
  induction l with
  | nil => intro _; rfl
  | cons x xs ih =>
    intro h
    obtain ⟨a, b⟩ := x
    simp only [List.map_cons, List.mem_cons, not_or] at h
    have hb : (k == a) = false := beq_eq_false_iff_ne.mpr h.1
    simp only [List.lookup, hb]
    exact ih h.2

theorem emissivity_calc_keys (ext : ExternalMath) (airTemp : ℕ → ℚ) :
    (emissivity_calc ext airTemp).map Prod.fst
      = ["DEFAULT", "TVA", "ANDERSON", "BRUTSAERT", "SATTERLUND", "IDSO", "PRATA"] := rfl

theorem cloud_calc_keys (tskc : ℕ → ℚ) :
    (cloud_calc tskc).map Prod.fst = ["DEFAULT", "CLOUD_DEARDORFF"] := rfl

/-- Claim C10: `disaggregate` leaves every input object unchanged — the
daily record, the solar-geometry table and the monthly `dur` / `t_pk`
inputs are the same after the call in every execution path (the result
frame is built fresh from the inputs). -/
theorem C10_inputs_unchanged (ext : ExternalMath) (p : Params)
    (tB tE : Option (ℚ × ℚ)) (s : Store) :
    ((disaggregate ext p tB tE s).1).daily = s.daily ∧
      ((disaggregate ext p tB tE s).1).solar = s.solar ∧
      ((disaggregate ext p tB tE s).1).dur = s.dur ∧
      ((disaggregate ext p tB tE s).1).t_pk = s.t_pk := by
  have hkey : (disaggregate ext p tB tE s).1 = s := by
    simp only [disaggregate]
    split
    · rfl
    · split
      · rfl
      · split
        · rfl
        · split
          · rfl
          · split
            · rfl
            · rfl
  rw [hkey]
  exact ⟨rfl, rfl, rfl, rfl⟩

/-- Claim C7: if the configured precipitation method, emissivity method, or
cloud-adjustment method name (upper-cased) is not among the recognized
names, `disaggregate` aborts with an error — no sub-daily record is
returned and the error is not recovered internally. -/
theorem C7_unknown_method_error (ext : ExternalMath) (p : Params)
    (tB tE : Option (ℚ × ℚ)) (s : Store)
    (h : upper p.prec_type ∉ ["UNIFORM", "TRIANGLE"] ∨
        upper p.lw_type ∉
          ["DEFAULT", "TVA", "ANDERSON", "BRUTSAERT", "SATTERLUND", "IDSO", "PRATA"] ∨
        upper p.lw_cloud ∉ ["DEFAULT", "CLOUD_DEARDORFF"]) :
    ∃ e, (disaggregate ext p tB tE s).2 = Except.error e := by
  simp only [disaggregate]
  split
  · exact ⟨_, rfl⟩
  · split
    · exact ⟨_, rfl⟩
    · split
      · exact ⟨_, rfl⟩
      · split
        · next e heq => exact ⟨e, rfl⟩
        · next pr heq =>
          split
          · next e2 heq2 => exact ⟨e2, rfl⟩
          · next pc heq2 =>
            exfalso
            rcases h with h | h | h
            · -- unknown precipitation method: prec_dispatch cannot have succeeded.
              simp only [List.mem_cons, List.not_mem_nil, not_or, or_false] at h
              rw [prec_dispatch, if_neg h.1, if_neg h.2] at heq2
              exact Except.noConfusion heq2
            · -- unknown emissivity method: longwave_emb cannot have succeeded.
              rw [longwave_emb, lookup_none_of_not_mem (upper p.lw_type) _
                (by rw [emissivity_calc_keys]; exact h)] at heq
              exact Except.noConfusion heq
            · -- unknown cloud-adjustment method: longwave_emb cannot have succeeded.
              rw [longwave_emb] at heq
              split at heq
              · exact Except.noConfusion heq
              · rw [lookup_none_of_not_mem (upper p.lw_cloud) _
                  (by rw [cloud_calc_keys]; exact h)] at heq
                exact Except.noConfusion heq

/-- Witness for C7: an unknown emissivity method name aborts the call. -/
theorem C7_unknown_method_error_witness :
    ∃ e,
      (disaggregate
          ⟨fun _ _ => 0, fun _ => 0, fun _ => 0, fun _ => 0, fun _ _ _ => 0⟩
          ⟨60, "UNIFORM", "FOO", "DEFAULT", 1 / 2, 0, 0⟩ none none
          ⟨⟨1, fun _ => 0, fun _ => 0, fun _ => 0, fun _ => 0, fun _ => 0, fun _ => 0,
              fun _ => 0, none, fun _ => 1, fun _ => 1⟩,
            ⟨fun _ _ => 0⟩, fun _ => 0, fun _ => 0⟩).2 = Except.error e :=
  C7_unknown_method_error _ _ none none _ (Or.inr (Or.inl (by decide)))

end MetSim


